import Mathlib

/-!
# Aether workflow engine — shallow embedding

Verification development for the Aether workflow-automation runtime
(`backend/src/engine/executionEngine.ts`, `backend/src/services/schedulerService.ts`,
`backend/src/types/workflow.types.ts`).

The engine operates on JavaScript values; we model the fragment that the
engine manipulates as the inductive `Value` below.  JavaScript numbers are
modelled as integers (the engine performs no arithmetic of its own, and the
spec's examples only use integer data); object property order is modelled by
association lists, matching the insertion-order semantics of JS objects and
`Map`.  Node handlers perform arbitrary I/O and live outside this repository's
engine sources; they are a parameter of the embedding (`Handlers`), exactly as
the node-handler registry is a runtime-populated dependency of the engine.
-/

namespace Aether

/-- The fragment of JavaScript values flowing through the engine:
`null`, `undefined`, booleans, (integer) numbers, strings and plain objects.
Objects are association lists in insertion order; JS object keys are unique,
which the engine's own writes preserve (`setAssoc`). -/
inductive Value : Type where
  | vNull : Value
  | vUndefined : Value
  | vBool : Bool → Value
  | vNum : Int → Value
  | vStr : String → Value
  | vObj : List (String × Value) → Value

/-- Parse a string of decimal digits (must be nonempty and all digits). -/
def digitsToNat? (cs : List Char) : Option Nat :=
  if cs = [] then none
  else if cs.all Char.isDigit then
    some (cs.foldl (fun acc c => 10 * acc + (c.toNat - 48)) 0)
  else none

/-- JS whitespace for `trim` (the common four characters). -/
def isJsSpace (c : Char) : Bool :=
  c = ' ' || c = '\t' || c = '\n' || c = '\r'

/-- `String.prototype.trim` on a char list. -/
def trimChars (cs : List Char) : List Char :=
  ((cs.dropWhile isJsSpace).reverse.dropWhile isJsSpace).reverse

/-- The decimal digits of a natural number, most significant first
(fuel-bounded division loop; `fuel > n` suffices). -/
def natToCharsAux : Nat → Nat → List Char
  | 0, _ => []
  | fuel + 1, n =>
    if n < 10 then [Char.ofNat (48 + n)]
    else natToCharsAux fuel (n / 10) ++ [Char.ofNat (48 + n % 10)]

/-- Decimal numeral of a natural number. -/
def natToChars (n : Nat) : List Char :=
  natToCharsAux (n + 1) n

/-- JS decimal rendering of an integer (`String(n)` for integral numbers). -/
def intToString (i : Int) : String :=
  match i with
  | .ofNat n => String.mk (natToChars n)
  | .negSucc m => String.mk ('-' :: natToChars (m + 1))

/-- JS `ToNumber` on strings, restricted to integer numerals: surrounding
whitespace is ignored, the empty string converts to `0`, an optional sign
followed by digits converts to the signed value, anything else is `NaN`
(`none`).  (Fractional/exponent/hex numerals are outside the integer model.) -/
def strToInt? (s : String) : Option Int :=
  match trimChars s.toList with
  | [] => some 0
  | '+' :: rest => (digitsToNat? rest).map Int.ofNat
  | '-' :: rest => (digitsToNat? rest).map (fun n => -(Int.ofNat n))
  | cs => (digitsToNat? cs).map Int.ofNat

namespace Value

/-- JS truthiness (`if (x)`, `x || y`): `null`, `undefined`, `false`, `0` and
`""` are falsy; every object is truthy. -/
def truthy : Value → Bool
  | vNull => false
  | vUndefined => false
  | vBool b => b
  | vNum n => n != 0
  | vStr s => s != ""
  | vObj _ => true

/-- JS `String(x)` coercion on the modelled fragment.  A plain object
stringifies to `"[object Object]"`. -/
def jsToString : Value → String
  | vNull => "null"
  | vUndefined => "undefined"
  | vBool b => if b then "true" else "false"
  | vNum n => Aether.intToString n
  | vStr s => s
  | vObj _ => "[object Object]"

end Value

/-- JS `ToNumber` on the modelled fragment; `none` is `NaN`.
`undefined` is `NaN`; `null` is `0`; a plain object converts via its string
form `"[object Object]"`, which is `NaN`. -/
def toNum? : Value → Option Int
  | .vNull => some 0
  | .vUndefined => none
  | .vBool b => some (if b then 1 else 0)
  | .vNum n => some n
  | .vStr s => strToInt? s
  | .vObj _ => none

/-- JS strict equality `===` on the modelled fragment.  Distinct types never
compare equal; primitives compare structurally.  Two objects compare by
reference; in the engine the condition's `value` (from the workflow
definition) and the field value (from a node's output) are never the same
reference, so object-object comparison is `false`. -/
def strictEqB : Value → Value → Bool
  | .vNull, .vNull => true
  | .vUndefined, .vUndefined => true
  | .vBool a, .vBool b => a == b
  | .vNum a, .vNum b => a == b
  | .vStr a, .vStr b => a == b
  | _, _ => false

/-- Lexicographic order on char lists (JS compares strings code-unit-wise;
a proper prefix sorts first). -/
def charListLt : List Char → List Char → Bool
  | [], [] => false
  | [], _ :: _ => true
  | _ :: _, [] => false
  | a :: as, b :: bs => a.toNat < b.toNat || (a == b && charListLt as bs)

/-- JS abstract relational comparison `a < b`: string-string compares
lexicographically, otherwise both sides convert via `ToNumber` and a `NaN`
on either side makes the comparison false. -/
def jsLtB : Value → Value → Bool
  | .vStr a, .vStr b => charListLt a.toList b.toList
  | a, b =>
    match toNum? a, toNum? b with
    | some m, some n => m < n
    | _, _ => false

/-- JS `a <= b`, i.e. `¬(b < a)` unless a `NaN` is involved (then false). -/
def jsLeB : Value → Value → Bool
  | .vStr a, .vStr b => !charListLt b.toList a.toList
  | a, b =>
    match toNum? a, toNum? b with
    | some m, some n => m ≤ n
    | _, _ => false

/-- Does `needle` occur as a contiguous substring of `hay` (char lists)?
Mirrors JS `String.prototype.includes`. -/
def substrB (needle : List Char) : List Char → Bool
  | [] => needle.isEmpty
  | c :: t => needle.isPrefixOf (c :: t) || substrB needle t

/-! ## Regular expressions

`evaluateCondition`'s `regex` case builds `new RegExp(value)` and calls
`.test(String(fieldValue))`.  The `RegExp` engine is a JS builtin, not code of
this repository; we model the literal / `.` / `*` fragment of its pattern
syntax (every other character is a literal of itself; a quantifier with
nothing to repeat fails to compile, which `new RegExp` surfaces as a thrown
`SyntaxError`).  `test` succeeds iff the pattern matches some contiguous
substring of the subject. -/

/-- One regex atom: a literal character or the wildcard `.`. -/
inductive RAtom : Type where
  | rlit : Char → RAtom
  | rdot : RAtom
deriving DecidableEq, Repr

/-- A compiled pattern: a sequence of atoms, each optionally starred. -/
abbrev RPattern := List (RAtom × Bool)

/-- Does the atom match one character? -/
def atomM : RAtom → Char → Bool
  | .rlit c, d => c == d
  | .rdot, _ => true

/-- Compile a pattern string: `.` is the wildcard, a postfix `*` stars the
preceding atom, every other character is a literal.  A `*` with no preceding
atom does not compile (`none`). -/
def parseRegexChars : List Char → Option RPattern
  | [] => some []
  | '*' :: _ => none
  | c :: '*' :: rest2 =>
    (parseRegexChars rest2).map (fun p => ((if c = '.' then RAtom.rdot else RAtom.rlit c), true) :: p)
  | c :: rest =>
    (parseRegexChars rest).map (fun p => ((if c = '.' then RAtom.rdot else RAtom.rlit c), false) :: p)

/-- Compile a pattern string (see `parseRegexChars`). -/
def parseRegex (s : String) : Option RPattern :=
  parseRegexChars s.toList

/-- Fuel-bounded matcher: does the pattern match some prefix of the subject?
`fuel ≥ pattern length + subject length + 1` always suffices (each call
consumes an atom or a character). -/
def matchHere : Nat → RPattern → List Char → Bool
  | 0, _, _ => false
  | _ + 1, [], _ => true
  | fuel + 1, (a, false) :: ps, s =>
    match s with
    | [] => false
    | c :: t => atomM a c && matchHere fuel ps t
  | fuel + 1, (a, true) :: ps, s =>
    matchHere fuel ps s ||
      match s with
      | [] => false
      | c :: t => atomM a c && matchHere fuel ((a, true) :: ps) t

/-- Try `matchHere` at every start position of the subject. -/
def rtestFrom (fuel : Nat) (p : RPattern) : List Char → Bool
  | [] => matchHere fuel p []
  | c :: t => matchHere fuel p (c :: t) || rtestFrom fuel p t

/-- `RegExp.prototype.test`: the pattern matches somewhere in the subject. -/
def rtest (p : RPattern) (s : String) : Bool :=
  rtestFrom (p.length + s.toList.length + 1) p s.toList

/-! ## Dot-path lookup and condition evaluation
(`WorkflowExecutionEngine.getNestedValue` / `evaluateCondition`) -/

/-- Is the string a canonical array-index numeral (`"0"`, or digits with no
leading zero)?  JS treats only the canonical numeral as an index property. -/
def isCanonIndex (cs : List Char) : Bool :=
  match cs with
  | [] => false
  | '0' :: rest => rest.isEmpty
  | c :: _ => c.isDigit && cs.all Char.isDigit

/-- One step of `acc?.[part]`: optional chaining yields `undefined` on
`null`/`undefined`, property lookup on objects, `length`/index properties on
strings, and `undefined` on other primitives. -/
def propGet : Value → String → Value
  | .vNull, _ => .vUndefined
  | .vUndefined, _ => .vUndefined
  | .vBool _, _ => .vUndefined
  | .vNum _, _ => .vUndefined
  | .vStr s, key =>
    if key = "length" then .vNum s.length
    else
      match if isCanonIndex key.toList then digitsToNat? key.toList else none with
      | some i =>
        if i < s.length then .vStr (String.mk [s.toList.getD i ' ']) else .vUndefined
      | none => .vUndefined
  | .vObj fields, key => ((fields.find? (fun p => p.1 == key)).map Prod.snd).getD .vUndefined

/-- `path.split('.')` (the engine only ever splits on the dot): split a char
list at every `'.'`; the empty string splits to `[""]`. -/
def splitDots : List Char → List (List Char)
  | [] => [[]]
  | c :: t =>
    if c = '.' then [] :: splitDots t
    else
      match splitDots t with
      | [] => [[c]]
      | h :: r => (c :: h) :: r

/-- `getNestedValue`: dot-path lookup
(`path.split('.').reduce((acc, part) => acc?.[part], obj)`). -/
def getNestedValue (obj : Value) (path : String) : Value :=
  ((splitDots path.toList).map String.mk).foldl propGet obj

/-- An edge condition `{field, operator, value}`. -/
structure Condition where
  field : String
  operator : String
  value : Value

/-- `evaluateCondition`: no condition passes; otherwise the dot-resolved field
is compared to `value` according to `operator`; an unknown operator passes.
The `regex` case can throw (invalid pattern), hence the `Except`. -/
def evaluateCondition : Option Condition → Value → Except String Bool
  | none, _ => .ok true
  | some c, data =>
    let fieldValue := getNestedValue data c.field
    match c.operator with
    | "eq" => .ok (strictEqB fieldValue c.value)
    | "neq" => .ok (!strictEqB fieldValue c.value)
    | "gt" => .ok (jsLtB c.value fieldValue)
    | "gte" => .ok (jsLeB c.value fieldValue)
    | "lt" => .ok (jsLtB fieldValue c.value)
    | "lte" => .ok (jsLeB fieldValue c.value)
    | "contains" =>
      .ok (substrB (Value.jsToString c.value).toList (Value.jsToString fieldValue).toList)
    | "regex" =>
      match parseRegex (Value.jsToString c.value) with
      | some p => .ok (rtest p (Value.jsToString fieldValue))
      | none => .error ("Invalid regular expression: " ++ Value.jsToString c.value)
    | _ => .ok true

/-! ## Workflow data model (`workflow.types.ts`) -/

/-- A workflow node.  `position` is layout-only and `credentialId` is unused
by the engine; `config` is carried opaquely to the handler. -/
structure WorkflowNode where
  id : String
  type : String
  name : String
  config : Value

/-- A workflow edge; `sourceHandle`/`targetHandle` are layout-only. -/
structure WorkflowEdge where
  id : String
  source : String
  target : String
  condition : Option Condition

/-- Workflow `settings`; the engine only reads `errorHandling`
(`'stop' | 'continue' | 'retry'`). -/
structure WorkflowSettings where
  errorHandling : Option String
  maxRetries : Option Int
  timeout : Option Int

/-- A workflow definition. -/
structure WorkflowDefinition where
  id : String
  name : String
  nodes : List WorkflowNode
  edges : List WorkflowEdge
  settings : Option WorkflowSettings

/-- `workflow.settings?.errorHandling`. -/
def errorHandlingOf (wf : WorkflowDefinition) : Option String :=
  wf.settings.bind (fun s => s.errorHandling)

/-- A per-node execution record (`NodeExecutionResult`); the wall-clock
`startedAt`/`finishedAt` timestamps are outside the model. -/
structure NodeExecutionResult where
  nodeId : String
  status : String
  data : Option Value
  error : Option String

/-- The node-handler registry (`nodeHandlerRegistry.getHandler`): a node type
resolves to a handler or to nothing.  Handlers are external code; a handler
either returns an output or throws an error message. -/
abbrev Handlers := String → Option (WorkflowNode → Value → Except String Value)

/-! ## Engine state

`executedNodes : Set<string>`, `context.nodeOutputs : Map<string, any>` and
`nodeResults : Map<string, NodeExecutionResult>` keep insertion order; we
model them as lists ordered by insertion.  `handlerCalls` is instrumentation
(not a field of the source engine): it logs every handler invocation, in
order, so that "the handler runs at most once" is statable. -/
structure EngineState where
  executedNodes : List String
  nodeOutputs : List (String × Value)
  nodeResults : List (String × NodeExecutionResult)
  handlerCalls : List String

/-- The state at the start of an execution. -/
def EngineState.empty : EngineState :=
  { executedNodes := [], nodeOutputs := [], nodeResults := [], handlerCalls := [] }

/-- `Map.prototype.set`: update in place if the key exists, else append. -/
def setAssoc {α : Type} (m : List (String × α)) (k : String) (v : α) : List (String × α) :=
  if m.any (fun p => p.1 == k) then m.map (fun p => if p.1 == k then (k, v) else p)
  else m ++ [(k, v)]

/-- `Map.prototype.get` (`none` is `undefined`). -/
def lookupAssoc {α : Type} (m : List (String × α)) (k : String) : Option α :=
  (m.find? (fun p => p.1 == k)).map Prod.snd

/-- `Set.prototype.add`. -/
def addToSet (l : List String) (k : String) : List String :=
  if l.contains k then l else l ++ [k]

/-! ## The execution engine (`WorkflowExecutionEngine`) -/

/-- `getIncomingEdges`. -/
def getIncomingEdges (wf : WorkflowDefinition) (nodeId : String) : List WorkflowEdge :=
  wf.edges.filter (fun e => e.target == nodeId)

/-- `getOutgoingEdges`. -/
def getOutgoingEdges (wf : WorkflowDefinition) (nodeId : String) : List WorkflowEdge :=
  wf.edges.filter (fun e => e.source == nodeId)

/-- `String.prototype.startsWith` (char-list form). -/
def startsWithB (pre s : String) : Bool :=
  pre.toList.isPrefixOf s.toList

/-- `findStartNodes`: nodes no edge targets, plus nodes whose type starts
with `TRIGGER_`. -/
def findStartNodes (wf : WorkflowDefinition) : List WorkflowNode :=
  wf.nodes.filter (fun n =>
    !(wf.edges.any (fun e => e.target == n.id)) || startsWithB "TRIGGER_" n.type)

/-- `findEndNodes`: nodes with no outgoing edges. -/
def findEndNodes (wf : WorkflowDefinition) : List WorkflowNode :=
  wf.nodes.filter (fun n => !(wf.edges.any (fun e => e.source == n.id)))

/-- `gatherNodeInput`: no incoming edge → `context.input || {}`; one incoming
edge → `nodeOutputs.get(source) || {}`; several → `Object.assign` of every
source output that is truthy and an object, in edge-declaration order. -/
def gatherNodeInput (wf : WorkflowDefinition) (input : Value) (st : EngineState)
    (nodeId : String) : Value :=
  match getIncomingEdges wf nodeId with
  | [] => if input.truthy then input else .vObj []
  | [e] =>
    match lookupAssoc st.nodeOutputs e.source with
    | some v => if v.truthy then v else .vObj []
    | none => .vObj []
  | edges =>
    .vObj (edges.foldl (fun acc e =>
      match lookupAssoc st.nodeOutputs e.source with
      | some (.vObj fs) => fs.foldl (fun a p => setAssoc a p.1 p.2) acc
      | _ => acc) [])

/-- Mark a node executed and record its result
(`executedNodes.add(node.id); nodeResults.set(node.id, result)`). -/
def recordNode (st : EngineState) (nodeId : String) (result : NodeExecutionResult) :
    EngineState :=
  { st with
    executedNodes := addToSet st.executedNodes nodeId
    nodeResults := setAssoc st.nodeResults nodeId result }

/-- `executeNode`, fuel-bounded.  Returns the updated state and `some msg`
when an error was thrown (and is propagating), `none` on normal return.  The
downstream `for` loop is a fold whose accumulator short-circuits once an
error is propagating (a thrown error aborts the loop).  Each call consumes
one unit of fuel; since every nested productive call has marked one more node
executed, the recursion depth is at most `nodes.length + 1`, so the fuel
chosen by `executeCore` makes the `0` case unreachable. -/
def executeNode (wf : WorkflowDefinition) (handlers : Handlers) (input : Value) :
    Nat → EngineState → WorkflowNode → EngineState × Option String
  | 0, st, _ => (st, none)
  | fuel + 1, st, node =>
    -- skip if already executed
    if st.executedNodes.contains node.id then (st, none)
    -- defer if some upstream node has not executed
    else if (getIncomingEdges wf node.id).any (fun e => !st.executedNodes.contains e.source) then
      (st, none)
    else
      -- traverse outgoing edges (evaluating `edge.condition` against
      -- `result.data`, which is `undefined` for an error result)
      let downstream := fun (st' : EngineState) (result : NodeExecutionResult) =>
        (getOutgoingEdges wf node.id).foldl (fun acc e =>
          match acc with
          | (stAcc, some err) => (stAcc, some err)
          | (stAcc, none) =>
            match evaluateCondition e.condition (result.data.getD .vUndefined) with
            | .error m => (stAcc, some m)
            | .ok b =>
              if !b then (stAcc, none)
              else
                match wf.nodes.find? (fun n => n.id == e.target) with
                | some nx => executeNode wf handlers input fuel stAcc nx
                | none => (stAcc, none))
          (st', none)
      let inputv := gatherNodeInput wf input st node.id
      match handlers node.type with
      | none =>
        -- `throw new Error(...)` inside the try block: caught, an error result
        -- is built, and rethrown unless errorHandling is 'continue'; on
        -- rethrow the node is neither marked executed nor recorded.
        let msg := "No handler registered for node type: " ++ node.type
        let result : NodeExecutionResult :=
          { nodeId := node.id, status := "error", data := none, error := some msg }
        if errorHandlingOf wf ≠ some "continue" then (st, some msg)
        else downstream (recordNode st node.id result) result
      | some h =>
        let st1 := { st with handlerCalls := st.handlerCalls ++ [node.id] }
        match h node inputv with
        | .error msg =>
          let result : NodeExecutionResult :=
            { nodeId := node.id, status := "error", data := none, error := some msg }
          if errorHandlingOf wf ≠ some "continue" then (st1, some msg)
          else downstream (recordNode st1 node.id result) result
        | .ok output =>
          let st2 := { st1 with nodeOutputs := setAssoc st1.nodeOutputs node.id output }
          let result : NodeExecutionResult :=
            { nodeId := node.id, status := "success", data := some output, error := none }
          downstream (recordNode st2 node.id result) result

/-- The outcome `execute` returns; the random `executionId` is outside the
model.  `results` is `Array.from(nodeResults.values())`. -/
structure ExecutionOutcome where
  status : String
  results : List NodeExecutionResult
  output : Option Value
  error : Option String

/-- `execute`, also exposing the final engine state: find start nodes (fail
if none), seed every start node's output with a truthy input, run each start
node in order (a thrown error aborts the loop and fails the run), then read
the final output from the last end node. -/
def executeCore (wf : WorkflowDefinition) (handlers : Handlers) (input : Value) :
    ExecutionOutcome × EngineState :=
  let startNodes := findStartNodes wf
  if startNodes.isEmpty then
    ({ status := "failed", results := [], output := none,
       error := some "No trigger or start node found in workflow" }, EngineState.empty)
  else
    let st0 : EngineState :=
      if input.truthy then
        { EngineState.empty with
          nodeOutputs := startNodes.foldl (fun m n => setAssoc m n.id input) [] }
      else EngineState.empty
    let fuel := wf.nodes.length + 2
    let run := startNodes.foldl (fun acc n =>
      match acc with
      | (stAcc, some e) => (stAcc, some e)
      | (stAcc, none) => executeNode wf handlers input fuel stAcc n) (st0, none)
    match run with
    | (st, some msg) =>
      ({ status := "failed", results := st.nodeResults.map Prod.snd, output := none,
         error := some msg }, st)
    | (st, none) =>
      let ends := findEndNodes wf
      let finalOutput :=
        match ends.getLast? with
        | some n => lookupAssoc st.nodeOutputs n.id
        | none => none
      ({ status := "success", results := st.nodeResults.map Prod.snd,
         output := finalOutput, error := none }, st)

/-- `execute`'s caller-visible result. -/
def execute (wf : WorkflowDefinition) (handlers : Handlers) (input : Value) :
    ExecutionOutcome :=
  (executeCore wf handlers input).1

/-! ## Scheduler (`SchedulerService`)

`schedule` validates the cron expression with `cron.validate` (the `node-cron`
library, external to this repository) before creating anything; an invalid
expression throws `Invalid cron expression: ...` and no job is registered. -/

/-- Split a char list at every occurrence of a separator character. -/
def splitOnChar (sep : Char) : List Char → List (List Char)
  | [] => [[]]
  | c :: t =>
    if c = sep then [] :: splitOnChar sep t
    else
      match splitOnChar sep t with
      | [] => [[c]]
      | h :: r => (c :: h) :: r

/-- Whitespace-separated fields of a string. -/
def fieldsOf (s : String) : List (List Char) :=
  (splitOnChar ' ' s.toList).filter (fun w => !w.isEmpty)

/-- Is `cs` a numeral whose value lies in `[lo, hi]`? -/
def numInRange (lo hi : Nat) (cs : List Char) : Bool :=
  match digitsToNat? cs with
  | some n => lo ≤ n && n ≤ hi
  | none => false

/-- Base of a cron field part: `*`, a value, or a range `a-b`. -/
def validCronBase (lo hi : Nat) (cs : List Char) : Bool :=
  if cs = ['*'] then true
  else
    match splitOnChar '-' cs with
    | [v] => numInRange lo hi v
    | [a, b] =>
      numInRange lo hi a && numInRange lo hi b &&
        ((digitsToNat? a).getD 0 ≤ (digitsToNat? b).getD 0)
    | _ => false

/-- One comma-separated part of a cron field: a base with an optional
`/step`. -/
def validCronPart (lo hi : Nat) (cs : List Char) : Bool :=
  match splitOnChar '/' cs with
  | [base] => validCronBase lo hi base
  | [base, step] =>
    validCronBase lo hi base &&
      (match digitsToNat? step with
       | some n => n ≥ 1
       | none => false)
  | _ => false

/-- One cron field: a nonempty comma-separated list of parts. -/
def validCronField (lo hi : Nat) (cs : List Char) : Bool :=
  (splitOnChar ',' cs).all (fun p => !p.isEmpty && validCronPart lo hi p)

/-- Modelled from the spec: `cron.validate` of the `node-cron` library is not
code of this repository; the spec pins the accepted language to «standard
five-field `minute hour day-of-month month day-of-week` syntax;
`validateCron` must reject anything else».  Five whitespace-separated fields,
each a comma-list of `*`, value, or range, with an optional `/step`, over the
standard numeric ranges. -/
def validateCron (expr : String) : Bool :=
  match fieldsOf expr with
  | [minute, hour, dayOfMonth, month, dayOfWeek] =>
    validCronField 0 59 minute && validCronField 0 23 hour &&
      validCronField 1 31 dayOfMonth && validCronField 1 12 month &&
      validCronField 0 7 dayOfWeek
  | _ => false

/-- A scheduled job (`ScheduledJob`); the timer handle and the wall-clock
`lastRunAt`/`nextRunAt` fields are outside the model. -/
structure ScheduledJob where
  id : String
  workflowId : String
  cronExpression : String
  timezone : String
  isActive : Bool

/-- `SchedulerService.schedule`: validate the cron expression first (throw
`Invalid cron expression: ...` on failure, leaving the job table untouched),
else register an active job under a fresh id (`schedule_${uuid()}`, the
randomness being the `freshId` parameter) and return the id. -/
def scheduleModel (jobs : List (String × ScheduledJob))
    (workflowId cronExpression timezone freshId : String) :
    Except String String × List (String × ScheduledJob) :=
  if !validateCron cronExpression then
    (.error ("Invalid cron expression: " ++ cronExpression), jobs)
  else
    (.ok freshId,
      setAssoc jobs freshId
        { id := freshId, workflowId := workflowId, cronExpression := cronExpression,
          timezone := timezone, isActive := true })

/-! ## Job queue (`JobQueueService`)

The durable backend (BullMQ over Redis) is an external broker; the model
keeps only what `enqueue`/`getJobStatus` observe: whether a queue is
configured (`some` = durable mode, `none` = direct mode) and which jobs were
added.  In direct mode `enqueue` runs the Execution Engine synchronously
(`await this.executeDirect(payload)`) before returning the execution id. -/

/-- The wire-level job payload (`JobPayload`). -/
structure JobPayload where
  workflowId : String
  executionId : String
  input : Value
  userId : Option String
  mode : String

/-- Job-queue service state: the optional broker (with its added jobs) and
the registered-workflow store. -/
structure JobQueueState where
  queue : Option (List (String × JobPayload))
  workflowStore : List (String × WorkflowDefinition)

/-- `JobQueueService.enqueue`: build a payload under fresh ids; with a queue,
add the job and return the execution id at once (the run happens later on a
worker); without one, execute synchronously via the registered workflow
(throwing `Workflow not found: ...` if it is not registered) and only then
return the execution id.  The outcome component is the execution completed
within the call (`none` when the run was deferred to the broker). -/
def enqueueModel (st : JobQueueState) (handlers : Handlers) (workflowId : String)
    (input : Value) (userId : Option String) (mode : String)
    (freshJobId freshExecId : String) :
    Except String (String × JobQueueState × Option ExecutionOutcome) :=
  let payload : JobPayload :=
    { workflowId := workflowId, executionId := freshExecId, input := input,
      userId := userId, mode := mode }
  match st.queue with
  | some q =>
    .ok (freshExecId, { st with queue := some (setAssoc q freshJobId payload) }, none)
  | none =>
    match lookupAssoc st.workflowStore workflowId with
    | none => .error ("Workflow not found: " ++ workflowId)
    | some wf => .ok (freshExecId, st, some (execute wf handlers input))

/-- A job status record (`getJobStatus`'s non-null result).  The broker's
own job state machine is external; the model reports a queued job as
`waiting`. -/
structure JobStatus where
  state : String
  progress : Int

/-- `JobQueueService.getJobStatus`: `null` ("unavailable") whenever no queue
is configured, and `null` for an unknown job id. -/
def getJobStatusModel (st : JobQueueState) (jobId : String) : Option JobStatus :=
  match st.queue with
  | none => none
  | some q =>
    match lookupAssoc q jobId with
    | none => none
    | some _ => some { state := "waiting", progress := 0 }

/-! ## Association-list and fold lemmas -/

theorem fst_setAssocFun {α : Type} (k : String) (v : α) (p : String × α) :
    (if p.1 == k then (k, v) else p).1 = p.1 := by
  by_cases h : p.1 = k <;> simp [h]

theorem setAssoc_map_fst {α : Type} (m : List (String × α)) (k : String) (v : α) :
    (setAssoc m k v).map Prod.fst =
      if m.any (fun p => p.1 == k) then m.map Prod.fst else m.map Prod.fst ++ [k] := by
  unfold setAssoc
  split
  · simp only [List.map_map]
    exact List.map_congr_left (fun p _ => fst_setAssocFun k v p)
  · simp

theorem setAssoc_keys_nodup {α : Type} {m : List (String × α)} (k : String) (v : α)
    (h : (m.map Prod.fst).Nodup) : ((setAssoc m k v).map Prod.fst).Nodup := by
  rw [setAssoc_map_fst]
  split
  · exact h
  · rename_i hna
    have hk : k ∉ m.map Prod.fst := by
      intro hmem
      rcases List.mem_map.mp hmem with ⟨p, hp, hpk⟩
      exact hna (List.any_eq_true.mpr ⟨p, hp, by simp [hpk]⟩)
    simp [List.nodup_append, h, hk]

theorem mem_setAssoc {α : Type} {m : List (String × α)} {k : String} {v : α}
    {p : String × α} (h : p ∈ setAssoc m k v) : p ∈ m ∨ p = (k, v) := by
  unfold setAssoc at h
  split at h
  · rcases List.mem_map.mp h with ⟨q, hq, hpq⟩
    by_cases hqk : q.1 = k
    · simp [hqk] at hpq
      exact Or.inr hpq.symm
    · simp [hqk] at hpq
      exact Or.inl (hpq ▸ hq)
  · rcases List.mem_append.mp h with h1 | h1
    · exact Or.inl h1
    · exact Or.inr (List.mem_singleton.mp h1)

theorem addToSet_nodup {l : List String} (k : String) (h : l.Nodup) :
    (addToSet l k).Nodup := by
  unfold addToSet
  split
  · exact h
  · rename_i hnc
    have hk : k ∉ l := fun hm => hnc (List.elem_iff.mpr hm)
    simp [List.nodup_append, h, hk]

theorem mem_addToSet_self (l : List String) (k : String) : k ∈ addToSet l k := by
  unfold addToSet
  split
  · rename_i hc
    exact List.elem_iff.mp hc
  · simp

theorem mem_addToSet_of_mem {l : List String} {x : String} (k : String) (h : x ∈ l) :
    x ∈ addToSet l k := by
  unfold addToSet
  split
  · exact h
  · simp [h]

theorem foldl_preserve {α β : Type} (P : α → Prop) (f : α → β → α) :
    ∀ (l : List β) (init : α), P init → (∀ a b, b ∈ l → P a → P (f a b)) →
      P (l.foldl f init)
  | [], init, h, _ => h
  | b :: t, init, h, hstep =>
    foldl_preserve P f t (f init b) (hstep init b (by simp) h)
      (fun a b' hb' ha => hstep a b' (by simp [hb']) ha)

/-! ## Engine-state invariants -/

/-- No collection of the engine state contains a node twice. -/
def StateWFweak (st : EngineState) : Prop :=
  st.executedNodes.Nodup ∧ (st.nodeOutputs.map Prod.fst).Nodup ∧
    (st.nodeResults.map Prod.fst).Nodup ∧ st.handlerCalls.Nodup

/-- `StateWFweak`, plus: every handler invocation so far was for a node that
is now marked executed.  (This is momentarily broken between a handler
throwing and the abort reaching `execute` — exactly the states from which no
further handler runs.) -/
def StateWF (st : EngineState) : Prop :=
  StateWFweak st ∧ ∀ x ∈ st.handlerCalls, x ∈ st.executedNodes

/-- Invariant carried through the downstream-edge fold: the state stays
duplicate-free, and fully well-formed as long as no error is propagating. -/
def Pwf (acc : EngineState × Option String) : Prop :=
  StateWFweak acc.1 ∧ (acc.2 = none → StateWF acc.1)

theorem recordNode_wf {st : EngineState} (nodeId : String)
    (result : NodeExecutionResult) (h : StateWFweak st)
    (hsub : ∀ x ∈ st.handlerCalls, x ∈ st.executedNodes) :
    StateWF (recordNode st nodeId result) := by
  obtain ⟨h1, h2, h3, h4⟩ := h
  refine ⟨⟨addToSet_nodup nodeId h1, h2, setAssoc_keys_nodup nodeId result h3, h4⟩, ?_⟩
  intro x hx
  exact mem_addToSet_of_mem nodeId (hsub x hx)

theorem downstreamStep_wf (wf : WorkflowDefinition) (handlers : Handlers)
    (input : Value) (fuel : Nat)
    (ih : ∀ st node, StateWF st →
      StateWFweak (executeNode wf handlers input fuel st node).1 ∧
        ((executeNode wf handlers input fuel st node).2 = none →
          StateWF (executeNode wf handlers input fuel st node).1))
    (d : Value) (edges : List WorkflowEdge) (s0 : EngineState) (h0 : StateWF s0) :
    Pwf (edges.foldl (fun acc e =>
      match acc with
      | (stAcc, some err) => (stAcc, some err)
      | (stAcc, none) =>
        match evaluateCondition e.condition d with
        | .error m => (stAcc, some m)
        | .ok b =>
          if !b then (stAcc, none)
          else
            match wf.nodes.find? (fun n => n.id == e.target) with
            | some nx => executeNode wf handlers input fuel stAcc nx
            | none => (stAcc, none)) (s0, none)) := by
  apply foldl_preserve Pwf _ edges (s0, none) ⟨h0.1, fun _ => h0⟩
  intro acc e _ hacc
  obtain ⟨sa, oe⟩ := acc
  match oe with
  | some err => exact hacc
  | none =>
    have hsa : StateWF sa := hacc.2 rfl
    show Pwf (match evaluateCondition e.condition d with
      | .error m => (sa, some m)
      | .ok b =>
        if !b then (sa, none)
        else
          match wf.nodes.find? (fun n => n.id == e.target) with
          | some nx => executeNode wf handlers input fuel sa nx
          | none => (sa, none))
    cases hev : evaluateCondition e.condition d with
    | error m => exact ⟨hsa.1, by simp⟩
    | ok b =>
      cases b with
      | false => exact ⟨hsa.1, fun _ => hsa⟩
      | true =>
        show Pwf (match wf.nodes.find? (fun n => n.id == e.target) with
          | some nx => executeNode wf handlers input fuel sa nx
          | none => (sa, none))
        cases wf.nodes.find? (fun n => n.id == e.target) with
        | some nx => exact ih sa nx hsa
        | none => exact ⟨hsa.1, fun _ => hsa⟩

theorem notExec_of_notContains {st : EngineState} {id : String}
    (h : ¬(st.executedNodes.contains id = true)) : id ∉ st.executedNodes :=
  fun hm => h (List.elem_iff.mpr hm)

theorem calls_append_nodup {st : EngineState} (hwf : StateWF st) {id : String}
    (hnot : id ∉ st.executedNodes) : (st.handlerCalls ++ [id]).Nodup := by
  have hnc : id ∉ st.handlerCalls := fun hm => hnot (hwf.2 id hm)
  simp [List.nodup_append, hwf.1.2.2.2, hnc]

theorem record_after_call_wf {st : EngineState} (hwf : StateWF st) {id : String}
    (hnot : id ∉ st.executedNodes) (outs : List (String × Value))
    (houts : (outs.map Prod.fst).Nodup) (result : NodeExecutionResult) :
    StateWF (recordNode
      { st with handlerCalls := st.handlerCalls ++ [id], nodeOutputs := outs }
      id result) := by
  refine ⟨⟨addToSet_nodup id hwf.1.1, houts,
    setAssoc_keys_nodup id result hwf.1.2.2.1, calls_append_nodup hwf hnot⟩, ?_⟩
  intro x hx
  rcases List.mem_append.mp hx with hx1 | hx1
  · exact mem_addToSet_of_mem id (hwf.2 x hx1)
  · rw [List.mem_singleton.mp hx1]
    exact mem_addToSet_self _ id

/-- Every branch of `executeNode` keeps the state duplicate-free, and fully
well-formed whenever it returns normally. -/
theorem executeNode_wf (wf : WorkflowDefinition) (handlers : Handlers) (input : Value) :
    ∀ (fuel : Nat) (st : EngineState) (node : WorkflowNode), StateWF st →
      StateWFweak (executeNode wf handlers input fuel st node).1 ∧
        ((executeNode wf handlers input fuel st node).2 = none →
          StateWF (executeNode wf handlers input fuel st node).1) := by
  intro fuel
  induction fuel with
  | zero => intro st node h; exact ⟨h.1, fun _ => h⟩
  | succ fuel ih =>
    intro st node hwf
    simp only [executeNode]
    split
    · exact ⟨hwf.1, fun _ => hwf⟩
    split
    · exact ⟨hwf.1, fun _ => hwf⟩
    rename_i hex hdep
    have hnot : node.id ∉ st.executedNodes := notExec_of_notContains hex
    split
    · -- no handler registered
      split
      · exact ⟨hwf.1, by simp⟩
      · exact downstreamStep_wf wf handlers input fuel ih _ _ _
          (recordNode_wf _ _ hwf.1 hwf.2)
    · -- handler found: it was invoked (handlerCalls grows)
      split
      · -- handler threw
        split
        · exact ⟨⟨hwf.1.1, hwf.1.2.1, hwf.1.2.2.1, calls_append_nodup hwf hnot⟩, by simp⟩
        · exact downstreamStep_wf wf handlers input fuel ih _ _ _
            (record_after_call_wf hwf hnot _ hwf.1.2.1 _)
      · -- handler succeeded
        exact downstreamStep_wf wf handlers input fuel ih _ _ _
          (record_after_call_wf hwf hnot _ (setAssoc_keys_nodup _ _ hwf.1.2.1) _)


theorem downstreamStep_preserve (wf : WorkflowDefinition) (handlers : Handlers)
    (input : Value) (fuel : Nat) (Q : EngineState → Prop)
    (ih : ∀ st node, Q st → Q (executeNode wf handlers input fuel st node).1)
    (d : Value) (edges : List WorkflowEdge) (s0 : EngineState) (h0 : Q s0) :
    Q ((edges.foldl (fun acc e =>
      match acc with
      | (stAcc, some err) => (stAcc, some err)
      | (stAcc, none) =>
        match evaluateCondition e.condition d with
        | .error m => (stAcc, some m)
        | .ok b =>
          if !b then (stAcc, none)
          else
            match wf.nodes.find? (fun n => n.id == e.target) with
            | some nx => executeNode wf handlers input fuel stAcc nx
            | none => (stAcc, none)) (s0, none)).1) := by
  apply foldl_preserve (fun (acc : EngineState × Option String) => Q acc.1) _ edges (s0, none) h0
  intro acc e _ hacc
  obtain ⟨sa, oe⟩ := acc
  match oe with
  | some err => exact hacc
  | none =>
    show Q (match evaluateCondition e.condition d with
      | .error m => (sa, some m)
      | .ok b =>
        if !b then (sa, none)
        else
          match wf.nodes.find? (fun n : WorkflowNode => n.id == e.target) with
          | some nx => executeNode wf handlers input fuel sa nx
          | none => (sa, none)).1
    cases hev : evaluateCondition e.condition d with
    | error m => exact hacc
    | ok b =>
      cases b with
      | false => exact hacc
      | true =>
        show Q (match wf.nodes.find? (fun n : WorkflowNode => n.id == e.target) with
          | some nx => executeNode wf handlers input fuel sa nx
          | none => (sa, none)).1
        cases wf.nodes.find? (fun n : WorkflowNode => n.id == e.target) with
        | some nx => exact ih sa nx hacc
        | none => exact hacc

/-- All recorded results are `success` (the stop-mode invariant: an error
result is only ever recorded under `errorHandling = 'continue'`). -/
def allSuccess (st : EngineState) : Prop :=
  ∀ p ∈ st.nodeResults, p.2.status = "success"

theorem allSuccess_record {st : EngineState} (h : allSuccess st) (id : String)
    {res : NodeExecutionResult} (hres : res.status = "success")
    (outs : List (String × Value)) (calls : List String) :
    allSuccess (recordNode { st with nodeOutputs := outs, handlerCalls := calls } id res) := by
  intro p hp
  rcases mem_setAssoc hp with h1 | h1
  · exact h p h1
  · rw [h1]
    exact hres

theorem executeNode_allSuccess (wf : WorkflowDefinition) (handlers : Handlers)
    (input : Value) (hstop : errorHandlingOf wf ≠ some "continue") :
    ∀ (fuel : Nat) (st : EngineState) (node : WorkflowNode), allSuccess st →
      allSuccess (executeNode wf handlers input fuel st node).1 := by
  intro fuel
  induction fuel with
  | zero => intro st node h; exact h
  | succ fuel ih =>
    intro st node hall
    simp only [executeNode, if_pos hstop]
    split
    · exact hall
    split
    · exact hall
    split
    · exact hall
    split
    · exact hall
    · exact downstreamStep_preserve wf handlers input fuel allSuccess ih _ _ _
        (allSuccess_record hall _ rfl _ _)


/-- A condition that cannot throw when evaluated: any operator other than
`regex`, or a `regex` whose pattern compiles. -/
def conditionSafeB : Option Condition → Bool
  | none => true
  | some cond =>
    if cond.operator = "regex" then (parseRegex (Value.jsToString cond.value)).isSome
    else true

theorem evalCondition_ok_of_safe (c : Option Condition) (d : Value)
    (h : conditionSafeB c = true) : ∃ b, evaluateCondition c d = .ok b := by
  match c with
  | none => exact ⟨true, rfl⟩
  | some cond =>
    simp only [evaluateCondition]
    split
    · exact ⟨_, rfl⟩
    · exact ⟨_, rfl⟩
    · exact ⟨_, rfl⟩
    · exact ⟨_, rfl⟩
    · exact ⟨_, rfl⟩
    · exact ⟨_, rfl⟩
    · exact ⟨_, rfl⟩
    · rename_i hop
      simp only [conditionSafeB, hop, if_pos] at h
      cases hp : parseRegex (Value.jsToString cond.value) with
      | some p => exact ⟨_, rfl⟩
      | none =>
        rw [hp] at h
        simp at h
    · exact ⟨_, rfl⟩


theorem executeNode_noThrow (wf : WorkflowDefinition) (handlers : Handlers)
    (input : Value) (hcont : errorHandlingOf wf = some "continue")
    (hsafe : ∀ e ∈ wf.edges, conditionSafeB e.condition = true) :
    ∀ (fuel : Nat) (st : EngineState) (node : WorkflowNode),
      (executeNode wf handlers input fuel st node).2 = none := by
  have hnn : ¬(errorHandlingOf wf ≠ some "continue") := fun hne => hne hcont
  intro fuel
  induction fuel with
  | zero => intro st node; rfl
  | succ fuel ih =>
    intro st node
    have hdown : ∀ (d : Value) (s0 : EngineState),
        ((getOutgoingEdges wf node.id).foldl (fun acc e =>
          match acc with
          | (stAcc, some err) => (stAcc, some err)
          | (stAcc, none) =>
            match evaluateCondition e.condition d with
            | .error m => (stAcc, some m)
            | .ok b =>
              if !b then (stAcc, none)
              else
                match wf.nodes.find? (fun n : WorkflowNode => n.id == e.target) with
                | some nx => executeNode wf handlers input fuel stAcc nx
                | none => (stAcc, none)) (s0, none)).2 = none := by
      intro d s0
      apply foldl_preserve (fun (acc : EngineState × Option String) => acc.2 = none) _ _
        (s0, none) rfl
      intro acc e he hacc
      obtain ⟨sa, oe⟩ := acc
      match oe with
      | some err => exact hacc
      | none =>
        show (match evaluateCondition e.condition d with
          | .error m => (sa, some m)
          | .ok b =>
            if !b then (sa, none)
            else
              match wf.nodes.find? (fun n : WorkflowNode => n.id == e.target) with
              | some nx => executeNode wf handlers input fuel sa nx
              | none => (sa, none)).2 = none
        obtain ⟨b, hb⟩ := evalCondition_ok_of_safe e.condition d
          (hsafe e (List.mem_filter.mp he).1)
        rw [hb]
        cases b with
        | false => rfl
        | true =>
          show (match wf.nodes.find? (fun n : WorkflowNode => n.id == e.target) with
            | some nx => executeNode wf handlers input fuel sa nx
            | none => (sa, none)).2 = none
          cases wf.nodes.find? (fun n : WorkflowNode => n.id == e.target) with
          | some nx => exact ih sa nx
          | none => rfl
    simp only [executeNode, if_neg hnn]
    split
    · rfl
    split
    · rfl
    split
    · exact hdown _ _
    split
    · exact hdown _ _
    · exact hdown _ _


theorem empty_wf : StateWF EngineState.empty :=
  ⟨⟨List.nodup_nil, by simp [EngineState.empty], by simp [EngineState.empty],
    List.nodup_nil⟩, by intro x hx; simp [EngineState.empty] at hx⟩

theorem st0_wf (wf : WorkflowDefinition) (input : Value) :
    StateWF (if input.truthy then
      { EngineState.empty with
        nodeOutputs := (findStartNodes wf).foldl (fun m n => setAssoc m n.id input) [] }
      else EngineState.empty) := by
  split
  · refine ⟨⟨List.nodup_nil, ?_, by simp [EngineState.empty], List.nodup_nil⟩, ?_⟩
    · exact foldl_preserve (fun m => (List.map Prod.fst m).Nodup)
        (fun m n => setAssoc m n.id input) (findStartNodes wf) [] (by simp)
        (fun m n _ h => setAssoc_keys_nodup _ _ h)
    · intro x hx
      simp [EngineState.empty] at hx
  · exact empty_wf

theorem executeCore_run_wf (wf : WorkflowDefinition) (handlers : Handlers) (input : Value) :
    Pwf ((findStartNodes wf).foldl (fun acc n =>
      match acc with
      | (stAcc, some e) => (stAcc, some e)
      | (stAcc, none) => executeNode wf handlers input (wf.nodes.length + 2) stAcc n)
      ((if input.truthy then
          { EngineState.empty with
            nodeOutputs := (findStartNodes wf).foldl (fun m n => setAssoc m n.id input) [] }
        else EngineState.empty), none)) := by
  apply foldl_preserve Pwf _ _ _ ⟨(st0_wf wf input).1, fun _ => st0_wf wf input⟩
  intro acc n _ hacc
  obtain ⟨sa, oe⟩ := acc
  match oe with
  | some e => exact hacc
  | none => exact executeNode_wf wf handlers input _ sa n (hacc.2 rfl)

theorem executeCore_weak_wf (wf : WorkflowDefinition) (handlers : Handlers) (input : Value) :
    StateWFweak (executeCore wf handlers input).2 := by
  simp only [executeCore]
  split
  · exact empty_wf.1
  · split
    · rename_i heq
      have hP := executeCore_run_wf wf handlers input
      rw [heq] at hP
      exact hP.1
    · rename_i heq
      have hP := executeCore_run_wf wf handlers input
      rw [heq] at hP
      exact hP.1


theorem executeCore_run_allSuccess (wf : WorkflowDefinition) (handlers : Handlers)
    (input : Value) (hstop : errorHandlingOf wf ≠ some "continue") :
    allSuccess ((findStartNodes wf).foldl (fun acc n =>
      match acc with
      | (stAcc, some e) => (stAcc, some e)
      | (stAcc, none) => executeNode wf handlers input (wf.nodes.length + 2) stAcc n)
      ((if input.truthy then
          { EngineState.empty with
            nodeOutputs := (findStartNodes wf).foldl (fun m n => setAssoc m n.id input) [] }
        else EngineState.empty), none)).1 := by
  apply foldl_preserve (fun (acc : EngineState × Option String) => allSuccess acc.1) _ _ _ ?init
  case init =>
    intro p hp
    split at hp <;> simp [EngineState.empty] at hp
  intro acc n _ hacc
  obtain ⟨sa, oe⟩ := acc
  match oe with
  | some e => exact hacc
  | none => exact executeNode_allSuccess wf handlers input hstop _ sa n hacc

theorem execute_stop_results (wf : WorkflowDefinition) (handlers : Handlers)
    (input : Value) (hstop : errorHandlingOf wf ≠ some "continue") :
    ∀ r ∈ (execute wf handlers input).results, r.status = "success" := by
  simp only [execute, executeCore]
  split
  · intro r hr
    simp at hr
  · split
    · rename_i heq
      have hA := executeCore_run_allSuccess wf handlers input hstop
      rw [heq] at hA
      intro r hr
      rcases List.mem_map.mp hr with ⟨p, hp, hpr⟩
      rw [← hpr]
      exact hA p hp
    · rename_i heq
      have hA := executeCore_run_allSuccess wf handlers input hstop
      rw [heq] at hA
      intro r hr
      rcases List.mem_map.mp hr with ⟨p, hp, hpr⟩
      rw [← hpr]
      exact hA p hp

theorem execute_continue_success (wf : WorkflowDefinition) (handlers : Handlers)
    (input : Value) (hcont : errorHandlingOf wf = some "continue")
    (hsafe : ∀ e ∈ wf.edges, conditionSafeB e.condition = true)
    (hstart : ¬(findStartNodes wf).isEmpty = true) :
    (execute wf handlers input).status = "success" := by
  simp only [execute, executeCore]
  split
  · rename_i hemp
    exact absurd hemp hstart
  · have hN : (((findStartNodes wf).foldl (fun acc n =>
        match acc with
        | (stAcc, some e) => (stAcc, some e)
        | (stAcc, none) => executeNode wf handlers input (wf.nodes.length + 2) stAcc n)
        ((if input.truthy then
            { EngineState.empty with
              nodeOutputs := (findStartNodes wf).foldl (fun m n => setAssoc m n.id input) [] }
          else EngineState.empty), none))).2 = none := by
      apply foldl_preserve (fun (acc : EngineState × Option String) => acc.2 = none) _ _ _ rfl
      intro acc n _ hacc
      obtain ⟨sa, oe⟩ := acc
      match oe with
      | some e => exact hacc
      | none => exact executeNode_noThrow wf handlers input hcont hsafe _ sa n
    split
    · rename_i heq
      rw [heq] at hN
      exact absurd hN (by simp)
    · rfl


/-! ## Concrete fixtures used by the claim theorems -/

/-- Pass-through handlers: every node type resolves, every handler returns
its input. -/
def passHandlers : Handlers := fun _ => some (fun _ inp => .ok inp)

/-- Pass-through handlers except that node `B`'s handler throws `"boom"`. -/
def failBHandlers : Handlers :=
  fun _ => some (fun n inp => if n.id = "B" then .error "boom" else .ok inp)

/-- Pass-through handlers except that node `A` outputs the (falsy) number 0. -/
def zeroAHandlers : Handlers :=
  fun _ => some (fun n inp => if n.id = "A" then .ok (.vNum 0) else .ok inp)

def nodeA : WorkflowNode := ⟨"A", "ACTION_SET", "A", .vObj []⟩
def nodeB : WorkflowNode := ⟨"B", "ACTION_SET", "B", .vObj []⟩
def nodeC : WorkflowNode := ⟨"C", "ACTION_SET", "C", .vObj []⟩
def nodeD : WorkflowNode := ⟨"D", "ACTION_SET", "D", .vObj []⟩

/-- The input `{"x": 1}`. -/
def inputX : Value := .vObj [("x", .vNum 1)]

/-- A linear chain A → B → C with the given settings. -/
def chainWith (s : Option WorkflowSettings) : WorkflowDefinition :=
  ⟨"wf-chain", "chain", [nodeA, nodeB, nodeC],
    [⟨"e1", "A", "B", none⟩, ⟨"e2", "B", "C", none⟩], s⟩

def stopChainWF : WorkflowDefinition := chainWith (some ⟨some "stop", none, none⟩)
def contChainWF : WorkflowDefinition := chainWith (some ⟨some "continue", none, none⟩)
def plainChainWF : WorkflowDefinition := chainWith none

/-! ## C1 -/

/-- C1 counterexample: in the chain A → B → C with `errorHandling = 'stop'`
and B's handler throwing, the run is reported `failed` but `results` contains
only A's entry — the failing node B is **not** recorded (the engine rethrows
before `nodeResults.set`), refuting "entries … up to and including the
failing node". -/
theorem c1_counterexample :
    (execute stopChainWF failBHandlers inputX).status = "failed" ∧
    (execute stopChainWF failBHandlers inputX).error = some "boom" ∧
    (execute stopChainWF failBHandlers inputX).results.map (fun r => r.nodeId) = ["A"] ∧
    ¬∃ r ∈ (execute stopChainWF failBHandlers inputX).results, r.nodeId = "B" := by
  refine ⟨rfl, rfl, rfl, ?_⟩
  rintro ⟨r, hr, hB⟩
  have hmem : r.nodeId ∈ (execute stopChainWF failBHandlers inputX).results.map
      (fun r => r.nodeId) := List.mem_map_of_mem _ hr
  have hm : (execute stopChainWF failBHandlers inputX).results.map
      (fun r => r.nodeId) = ["A"] := rfl
  rw [hB, hm] at hmem
  exact absurd (List.mem_singleton.mp hmem) (by decide)

/-- C1 (amended): with `errorHandling ≠ 'continue'` a node-handler error
aborts the run — the status is `failed` and `results` contains entries only
for the nodes that completed strictly before the failure (all `success`; the
failing node itself is not recorded).  With `errorHandling = 'continue'` a
handler error never aborts: the run (with a start node, and no invalid regex
pattern on an edge) ends with status `success`, the failing node's result is
recorded with status `error`, and downstream nodes are still attempted with
degraded input (`{}` standing in for the absent output). -/
theorem c1_error_policy :
    (∀ (wf : WorkflowDefinition) (handlers : Handlers) (input : Value),
      errorHandlingOf wf ≠ some "continue" →
        ∀ r ∈ (execute wf handlers input).results, r.status = "success") ∧
    (∀ (wf : WorkflowDefinition) (handlers : Handlers) (input : Value),
      errorHandlingOf wf = some "continue" →
      (∀ e ∈ wf.edges, conditionSafeB e.condition = true) →
      ¬(findStartNodes wf).isEmpty = true →
      (execute wf handlers input).status = "success") ∧
    ((execute stopChainWF failBHandlers inputX).status = "failed" ∧
      (execute stopChainWF failBHandlers inputX).results.map
        (fun r => (r.nodeId, r.status)) = [("A", "success")]) ∧
    ((execute contChainWF failBHandlers inputX).status = "success" ∧
      (execute contChainWF failBHandlers inputX).results.map
        (fun r => (r.nodeId, r.status)) =
          [("A", "success"), ("B", "error"), ("C", "success")] ∧
      lookupAssoc (executeCore contChainWF failBHandlers inputX).2.nodeOutputs "C" =
        some (.vObj [])) :=
  ⟨execute_stop_results, execute_continue_success, ⟨rfl, rfl⟩, ⟨rfl, rfl, rfl⟩⟩

/-- C1 witness: the two universally-quantified clauses instantiated on the
concrete chains. -/
theorem c1_witness :
    (∀ r ∈ (execute stopChainWF failBHandlers inputX).results, r.status = "success") ∧
    (execute contChainWF failBHandlers inputX).status = "success" := by
  refine ⟨c1_error_policy.1 stopChainWF failBHandlers inputX (by decide), ?_⟩
  refine c1_error_policy.2.1 contChainWF failBHandlers inputX rfl ?_ (by decide)
  intro e he
  simp [contChainWF, chainWith] at he
  rcases he with h | h <;> rw [h] <;> rfl


theorem executeNode_deferred (wf : WorkflowDefinition) (handlers : Handlers)
    (input : Value) (fuel : Nat) (st : EngineState) (node : WorkflowNode)
    (e : WorkflowEdge) (he : e ∈ getIncomingEdges wf node.id)
    (hns : e.source ∉ st.executedNodes) :
    executeNode wf handlers input fuel st node = (st, none) := by
  cases fuel with
  | zero => rfl
  | succ fuel =>
    simp only [executeNode]
    split
    · rfl
    split
    · rfl
    · rename_i hdep
      exfalso
      apply hdep
      refine List.any_eq_true.mpr ⟨e, he, ?_⟩
      have hc : st.executedNodes.contains e.source = false := by
        cases hcc : st.executedNodes.contains e.source with
        | false => rfl
        | true => exact absurd (List.elem_iff.mp hcc) hns
      rw [hc]
      rfl

/-- C2: per execution, `executedNodes` and the keys of `nodeOutputs` are
duplicate-free, the handler-invocation log is duplicate-free (each node's
handler runs at most once), and an attempt on a node one of whose inbound
sources has not executed returns the state unchanged with no invocation
recorded. -/
theorem c2_execution_invariants :
    (∀ (wf : WorkflowDefinition) (handlers : Handlers) (input : Value),
      (executeCore wf handlers input).2.executedNodes.Nodup ∧
      ((executeCore wf handlers input).2.nodeOutputs.map Prod.fst).Nodup ∧
      (executeCore wf handlers input).2.handlerCalls.Nodup) ∧
    (∀ (wf : WorkflowDefinition) (handlers : Handlers) (input : Value) (fuel : Nat)
      (st : EngineState) (node : WorkflowNode) (e : WorkflowEdge),
      e ∈ getIncomingEdges wf node.id → e.source ∉ st.executedNodes →
      executeNode wf handlers input fuel st node = (st, none)) :=
  ⟨fun wf handlers input =>
    ⟨(executeCore_weak_wf wf handlers input).1,
     (executeCore_weak_wf wf handlers input).2.1,
     (executeCore_weak_wf wf handlers input).2.2.2⟩,
   fun wf handlers input fuel st node e he hns =>
    executeNode_deferred wf handlers input fuel st node e he hns⟩

/-- C2 witness: the invariants on a concrete run, and a deferred attempt on
node B of the chain from a state in which its upstream A has not executed. -/
theorem c2_witness :
    ((executeCore plainChainWF passHandlers inputX).2.executedNodes.Nodup ∧
      (executeCore plainChainWF passHandlers inputX).2.handlerCalls.Nodup) ∧
    executeNode plainChainWF passHandlers inputX 5 EngineState.empty nodeB =
      (EngineState.empty, none) := by
  refine ⟨⟨(c2_execution_invariants.1 plainChainWF passHandlers inputX).1,
    (c2_execution_invariants.1 plainChainWF passHandlers inputX).2.2⟩, ?_⟩
  refine c2_execution_invariants.2 plainChainWF passHandlers inputX 5 EngineState.empty
    nodeB ⟨"e1", "A", "B", none⟩ ?_ ?_
  · show (⟨"e1", "A", "B", none⟩ : WorkflowEdge) ∈ [(⟨"e1", "A", "B", none⟩ : WorkflowEdge)]
    exact List.mem_singleton.mpr rfl
  · intro h
    simp [EngineState.empty] at h


/-- A trigger-typed node (type `TRIGGER_WEBHOOK`). -/
def nodeT : WorkflowNode := ⟨"T", "TRIGGER_WEBHOOK", "T", .vObj []⟩

/-- A with an edge into trigger node T: T starts despite the incoming edge. -/
def trigWF : WorkflowDefinition :=
  ⟨"wf-trig", "trig", [nodeA, nodeT], [⟨"e1", "A", "T", none⟩], none⟩

/-- A two-node cycle: every node has an incoming edge and no trigger type,
so no start node exists. -/
def cycWF : WorkflowDefinition :=
  ⟨"wf-cyc", "cyc", [nodeA, nodeB],
    [⟨"e1", "A", "B", none⟩, ⟨"e2", "B", "A", none⟩], none⟩

/-- C4: `findStartNodes` selects exactly the nodes no edge targets plus the
nodes whose type starts with `TRIGGER_` (the trigger types); when no start
node exists, `execute` fails with the no-start-node error and an empty
results array.  On the concrete fixture, trigger node T starts despite its
incoming edge. -/
theorem c4_start_nodes :
    (∀ (wf : WorkflowDefinition) (n : WorkflowNode),
      n ∈ findStartNodes wf ↔
        n ∈ wf.nodes ∧
          ((∀ e ∈ wf.edges, e.target ≠ n.id) ∨ startsWithB "TRIGGER_" n.type = true)) ∧
    (∀ (wf : WorkflowDefinition) (handlers : Handlers) (input : Value),
      findStartNodes wf = [] →
        (execute wf handlers input).status = "failed" ∧
        (execute wf handlers input).error =
          some "No trigger or start node found in workflow" ∧
        (execute wf handlers input).results = []) ∧
    (findStartNodes trigWF).map (fun n => n.id) = ["A", "T"] := by
  refine ⟨?_, ?_, rfl⟩
  · intro wf n
    simp [findStartNodes, List.mem_filter, List.any_eq_false, beq_eq_false_iff_ne]
  · intro wf handlers input h
    simp only [execute, executeCore, h]
    exact ⟨rfl, rfl, rfl⟩

/-- C4 witness: T is a start node of the trigger fixture, and the two-node
cycle fails with the no-start-node error. -/
theorem c4_witness :
    nodeT ∈ findStartNodes trigWF ∧
    (execute cycWF passHandlers inputX).status = "failed" := by
  constructor
  · refine (c4_start_nodes.1 trigWF nodeT).mpr ⟨?_, Or.inr rfl⟩
    show nodeT ∈ [nodeA, nodeT]
    simp
  · exact ((c4_start_nodes.2.1 cycWF passHandlers inputX) rfl).1


/-- C6: the returned output is the recorded output of the last node, in
declaration order, among the nodes with no outgoing edges; on the concrete
chain A → B → C with pass-through handlers the output is C's produced value. -/
theorem c6_final_output :
    (∀ (wf : WorkflowDefinition) (handlers : Handlers) (input : Value),
      (execute wf handlers input).status = "success" →
        (execute wf handlers input).output =
          match (findEndNodes wf).getLast? with
          | some n => lookupAssoc (executeCore wf handlers input).2.nodeOutputs n.id
          | none => none) ∧
    (findEndNodes plainChainWF).map (fun n => n.id) = ["C"] ∧
    (execute plainChainWF passHandlers inputX).output =
      lookupAssoc (executeCore plainChainWF passHandlers inputX).2.nodeOutputs "C" ∧
    lookupAssoc (executeCore plainChainWF passHandlers inputX).2.nodeOutputs "C" =
      some inputX := by
  refine ⟨?_, rfl, rfl, rfl⟩
  intro wf handlers input
  simp only [execute, executeCore]
  split
  · intro h
    simp at h
  · split
    · intro h
      simp at h
    · intro _
      rfl

/-- C6 witness: the general clause instantiated on the chain. -/
theorem c6_witness :
    (execute plainChainWF passHandlers inputX).output =
      match (findEndNodes plainChainWF).getLast? with
      | some n => lookupAssoc (executeCore plainChainWF passHandlers inputX).2.nodeOutputs n.id
      | none => none :=
  c6_final_output.1 plainChainWF passHandlers inputX rfl


theorem setAssocFun_pred {α : Type} (k k' : String) (v : α) :
    ((fun p : String × α => p.1 == k') ∘ (fun p => if p.1 == k then (k, v) else p)) =
      (fun p : String × α => p.1 == k') := by
  funext p
  simp only [Function.comp_apply]
  rw [fst_setAssocFun]

theorem lookup_setAssoc_self {α : Type} (m : List (String × α)) (k : String) (v : α) :
    lookupAssoc (setAssoc m k v) k = some v := by
  unfold setAssoc lookupAssoc
  split
  · rename_i hany
    rw [List.find?_map, setAssocFun_pred]
    obtain ⟨q, hq, hqk⟩ := List.any_eq_true.mp hany
    cases hfind : m.find? (fun p => p.1 == k) with
    | none => exact absurd (List.find?_eq_none.mp hfind q hq) (by simp [hqk])
    | some q' =>
      have hk' : q'.1 = k := by simpa using List.find?_some hfind
      simp [hk']
  · rename_i hany
    rw [List.find?_append]
    have hnone : m.find? (fun p => p.1 == k) = none :=
      List.find?_eq_none.mpr (fun x hx hpx => hany (List.any_eq_true.mpr ⟨x, hx, hpx⟩))
    simp [hnone]

theorem lookup_setAssoc_ne {α : Type} (m : List (String × α)) (k k' : String) (v : α)
    (h : k' ≠ k) : lookupAssoc (setAssoc m k v) k' = lookupAssoc m k' := by
  unfold setAssoc lookupAssoc
  split
  · rw [List.find?_map, setAssocFun_pred]
    cases hfind : m.find? (fun p => p.1 == k') with
    | none => rfl
    | some q =>
      have hk' : q.1 = k' := by simpa using List.find?_some hfind
      have : q.1 ≠ k := by rw [hk']; exact h
      simp [this]
  · rw [List.find?_append]
    have h2 : [(k, v)].find? (fun p => p.1 == k') = none := by
      simp [Ne.symm h]
    simp [h2]


theorem lookup_cons {α : Type} (k' : String) (v' : α) (rest : List (String × α))
    (k : String) :
    lookupAssoc ((k', v') :: rest) k = if k' = k then some v' else lookupAssoc rest k := by
  unfold lookupAssoc
  by_cases h : k' = k
  · simp [List.find?_cons, h]
  · simp [List.find?_cons, h]

theorem lookup_assignFields {α : Type} (fs : List (String × α)) :
    ∀ (acc : List (String × α)) (k : String), (fs.map Prod.fst).Nodup →
      lookupAssoc (fs.foldl (fun a p => setAssoc a p.1 p.2) acc) k =
        match lookupAssoc fs k with
        | some v => some v
        | none => lookupAssoc acc k := by
  induction fs with
  | nil => intro acc k _; rfl
  | cons p rest ih =>
    intro acc k hnd
    obtain ⟨k', v'⟩ := p
    simp only [List.map_cons, List.nodup_cons] at hnd
    show lookupAssoc (rest.foldl _ (setAssoc acc k' v')) k = _
    rw [ih (setAssoc acc k' v') k hnd.2, lookup_cons]
    by_cases hk : k' = k
    · subst hk
      have hrest : lookupAssoc rest k' = none := by
        unfold lookupAssoc
        rw [List.find?_eq_none.mpr]
        · rfl
        · intro x hx hpx
          exact hnd.1 (List.mem_map.mpr ⟨x, hx, by simpa using hpx⟩)
      rw [hrest]
      simp [lookup_setAssoc_self]
    · rw [if_neg hk]
      cases hr : lookupAssoc rest k with
      | some v => rfl
      | none => simp [lookup_setAssoc_ne acc k' k v' (Ne.symm hk)]


theorem lookup_gatherFold (st : EngineState) (k : String) :
    ∀ (es : List WorkflowEdge) (acc : List (String × Value)),
      (∀ e ∈ es, ∀ fs, lookupAssoc st.nodeOutputs e.source = some (.vObj fs) →
        (fs.map Prod.fst).Nodup) →
      lookupAssoc (es.foldl (fun acc e =>
        match lookupAssoc st.nodeOutputs e.source with
        | some (.vObj fs) => fs.foldl (fun a p => setAssoc a p.1 p.2) acc
        | _ => acc) acc) k =
      match es.reverse.findSome? (fun e =>
        match lookupAssoc st.nodeOutputs e.source with
        | some (.vObj fs) => lookupAssoc fs k
        | _ => none) with
      | some v => some v
      | none => lookupAssoc acc k := by
  intro es
  induction es with
  | nil => intro acc _; rfl
  | cons e rest ih =>
    intro acc hkeys
    show lookupAssoc (rest.foldl _ _) k = _
    rw [ih _ (fun e' he' => hkeys e' (by simp [he']))]
    rw [List.reverse_cons, List.findSome?_append]
    cases hfs : rest.reverse.findSome? (fun e =>
        match lookupAssoc st.nodeOutputs e.source with
        | some (.vObj fs) => lookupAssoc fs k
        | _ => none) with
    | some v => rfl
    | none =>
      simp only [Option.none_or, List.findSome?_cons, List.findSome?_nil]
      cases hsrc : lookupAssoc st.nodeOutputs e.source with
      | none => rfl
      | some v =>
        cases v with
        | vObj fs =>
          rw [lookup_assignFields fs acc k (hkeys e (by simp) fs hsrc)]
          cases hfk : lookupAssoc fs k with
          | some w => simp [hfk]
          | none => simp [hfk]
        | vNull => rfl
        | vUndefined => rfl
        | vBool b => rfl
        | vNum n => rfl
        | vStr s => rfl


/-- A → B. -/
def abWF : WorkflowDefinition :=
  ⟨"wf-ab", "ab", [nodeA, nodeB], [⟨"e1", "A", "B", none⟩], none⟩

def nodeS1 : WorkflowNode := ⟨"S1", "ACTION_SET", "S1", .vObj []⟩
def nodeS2 : WorkflowNode := ⟨"S2", "ACTION_SET", "S2", .vObj []⟩
def nodeM : WorkflowNode := ⟨"M", "ACTION_SET", "M", .vObj []⟩

/-- S1 → M ← S2: a two-source merge target. -/
def mergeWF : WorkflowDefinition :=
  ⟨"wf-merge", "merge", [nodeS1, nodeS2, nodeM],
    [⟨"e1", "S1", "M", none⟩, ⟨"e2", "S2", "M", none⟩], none⟩

/-- State in which S1 produced `{a:1}` and S2 produced `{b:2}`. -/
def mergeSt : EngineState :=
  { executedNodes := ["S1", "S2"],
    nodeOutputs := [("S1", .vObj [("a", .vNum 1)]), ("S2", .vObj [("b", .vNum 2)])],
    nodeResults := [], handlerCalls := [] }

/-- State in which S1 produced `{a:1}` and S2 produced `{a:2}` (overlap). -/
def overlapSt : EngineState :=
  { executedNodes := ["S1", "S2"],
    nodeOutputs := [("S1", .vObj [("a", .vNum 1)]), ("S2", .vObj [("a", .vNum 2)])],
    nodeResults := [], handlerCalls := [] }

/-- C3 counterexample: in A → B with A's handler returning the falsy number
0, B's dispatch-time input is `{}` — `nodeOutputs.get(...) || {}` replaces
any falsy output, not only a missing one — so B's pass-through handler
records `{}` while A's recorded output is `0`. -/
theorem c3_counterexample :
    lookupAssoc (executeCore abWF zeroAHandlers inputX).2.nodeOutputs "A" =
      some (.vNum 0) ∧
    gatherNodeInput abWF inputX (executeCore abWF zeroAHandlers inputX).2 "B" =
      .vObj [] ∧
    lookupAssoc (executeCore abWF zeroAHandlers inputX).2.nodeOutputs "B" =
      some (.vObj []) ∧
    (Value.vObj [] : Value) ≠ .vNum 0 :=
  ⟨rfl, rfl, rfl, fun h => Value.noConfusion h⟩

/-- C3 (amended): with zero incoming edges the input is the original
execution input when truthy, else `{}`; with one incoming edge it is the
source's output when truthy, else `{}` (also `{}` when no output was
recorded); with several incoming edges it is the shallow merge, in
edge-declaration order, of those source outputs that are (truthy) objects —
for any key the merged value is the one from the latest-declared source
object carrying that key.  Concretely, sources `{a:1}` and `{b:2}` merge to
`{a:1,b:2}`, and with sources `{a:1}` and `{a:2}` the later edge wins. -/
theorem c3_input_gathering :
    (∀ (wf : WorkflowDefinition) (input : Value) (st : EngineState) (nodeId : String),
      getIncomingEdges wf nodeId = [] →
        gatherNodeInput wf input st nodeId = if input.truthy then input else .vObj []) ∧
    (∀ (wf : WorkflowDefinition) (input : Value) (st : EngineState) (nodeId : String)
      (e : WorkflowEdge), getIncomingEdges wf nodeId = [e] →
        gatherNodeInput wf input st nodeId =
          match lookupAssoc st.nodeOutputs e.source with
          | some v => if v.truthy then v else .vObj []
          | none => .vObj []) ∧
    (∀ (wf : WorkflowDefinition) (input : Value) (st : EngineState) (nodeId : String)
      (e1 e2 : WorkflowEdge) (rest : List WorkflowEdge),
      getIncomingEdges wf nodeId = e1 :: e2 :: rest →
      (∀ e ∈ e1 :: e2 :: rest, ∀ fs,
        lookupAssoc st.nodeOutputs e.source = some (.vObj fs) →
          (fs.map Prod.fst).Nodup) →
      ∃ fsm, gatherNodeInput wf input st nodeId = .vObj fsm ∧
        ∀ k, lookupAssoc fsm k =
          (e1 :: e2 :: rest).reverse.findSome? (fun e =>
            match lookupAssoc st.nodeOutputs e.source with
            | some (.vObj fs) => lookupAssoc fs k
            | _ => none)) ∧
    (gatherNodeInput mergeWF inputX mergeSt "M" =
      .vObj [("a", .vNum 1), ("b", .vNum 2)] ∧
     gatherNodeInput mergeWF inputX overlapSt "M" = .vObj [("a", .vNum 2)]) := by
  refine ⟨?_, ?_, ?_, rfl, rfl⟩
  · intro wf input st nodeId h
    simp only [gatherNodeInput, h]
  · intro wf input st nodeId e h
    simp only [gatherNodeInput, h]
  · intro wf input st nodeId e1 e2 rest h hkeys
    refine ⟨(e1 :: e2 :: rest).foldl (fun acc e =>
        match lookupAssoc st.nodeOutputs e.source with
        | some (.vObj fs) => fs.foldl (fun a p => setAssoc a p.1 p.2) acc
        | _ => acc) [], ?_, ?_⟩
    · simp only [gatherNodeInput, h]
    intro k
    rw [lookup_gatherFold st k (e1 :: e2 :: rest) [] hkeys]
    cases hX : (e1 :: e2 :: rest).reverse.findSome? (fun e =>
        match lookupAssoc st.nodeOutputs e.source with
        | some (.vObj fs) => lookupAssoc fs k
        | _ => none) with
    | some v => rfl
    | none => rfl


/-- C3 witness: the zero-edge clause on the chain head, the one-edge clause
on A → B after the falsy-output run, and the merge clause on the two-source
fixture. -/
theorem c3_witness :
    gatherNodeInput plainChainWF inputX EngineState.empty "A" =
      (if inputX.truthy then inputX else .vObj []) ∧
    gatherNodeInput abWF inputX (executeCore abWF zeroAHandlers inputX).2 "B" =
      (match lookupAssoc (executeCore abWF zeroAHandlers inputX).2.nodeOutputs "A" with
       | some v => if v.truthy then v else .vObj []
       | none => .vObj []) ∧
    (∃ fsm, gatherNodeInput mergeWF inputX mergeSt "M" = .vObj fsm ∧
      ∀ k, lookupAssoc fsm k =
        ([⟨"e1", "S1", "M", none⟩, ⟨"e2", "S2", "M", none⟩] :
            List WorkflowEdge).reverse.findSome? (fun e =>
          match lookupAssoc mergeSt.nodeOutputs e.source with
          | some (.vObj fs) => lookupAssoc fs k
          | _ => none)) := by
  refine ⟨c3_input_gathering.1 plainChainWF inputX EngineState.empty "A" rfl,
    c3_input_gathering.2.1 abWF inputX _ "B" ⟨"e1", "A", "B", none⟩ rfl,
    c3_input_gathering.2.2.1 mergeWF inputX mergeSt "M"
      ⟨"e1", "S1", "M", none⟩ ⟨"e2", "S2", "M", none⟩ [] rfl ?_⟩
  intro e he fs hfs
  rcases (by simpa using he :
      e = (⟨"e1", "S1", "M", none⟩ : WorkflowEdge) ∨
      e = (⟨"e2", "S2", "M", none⟩ : WorkflowEdge)) with h | h
  · subst h
    have hv : lookupAssoc mergeSt.nodeOutputs "S1" =
        some (.vObj [("a", .vNum 1)]) := rfl
    rw [hv] at hfs
    injection hfs with h1
    injection h1 with h2
    rw [← h2]
    simp
  · subst h
    have hv : lookupAssoc mergeSt.nodeOutputs "S2" =
        some (.vObj [("b", .vNum 2)]) := rfl
    rw [hv] at hfs
    injection hfs with h1
    injection h1 with h2
    rw [← h2]
    simp


def nodeS3 : WorkflowNode := ⟨"S3", "ACTION_SET", "S3", .vObj []⟩
def nodeS4 : WorkflowNode := ⟨"S4", "ACTION_SET", "S4", .vObj []⟩
def nodeS5 : WorkflowNode := ⟨"S5", "ACTION_SET", "S5", .vObj []⟩

/-- Five sources feeding M. -/
def mixWF : WorkflowDefinition :=
  ⟨"wf-mix", "mix", [nodeS1, nodeS2, nodeS3, nodeS4, nodeS5, nodeM],
    [⟨"e1", "S1", "M", none⟩, ⟨"e2", "S2", "M", none⟩, ⟨"e3", "S3", "M", none⟩,
     ⟨"e4", "S4", "M", none⟩, ⟨"e5", "S5", "M", none⟩], none⟩

/-- S1 produced a string, S2 a number, S3 null, S4 nothing at all, and only
S5 an object. -/
def mixSt : EngineState :=
  { executedNodes := ["S1", "S2", "S3", "S4", "S5"],
    nodeOutputs := [("S1", .vStr "s"), ("S2", .vNum 7), ("S3", .vNull),
      ("S5", .vObj [("b", .vNum 2)])],
    nodeResults := [], handlerCalls := [] }

/-- S1 produced a string; S2 produced nothing. -/
def strSt : EngineState :=
  { executedNodes := ["S1", "S2"], nodeOutputs := [("S1", .vStr "x")],
    nodeResults := [], handlerCalls := [] }

/-- C10: a source whose recorded output is not a truthy object (a string, a
number, null, or no recorded output at all) contributes no keys to a
multi-edge merge — if no source is a truthy object the merged input is `{}`
— and in the single-edge case a missing source output is replaced by `{}`.
Concretely, merging a string, a number, null, a missing output and `{b:2}`
yields exactly `{b:2}`. -/
theorem c10_gather_skips :
    (∀ (wf : WorkflowDefinition) (input : Value) (st : EngineState) (nodeId : String)
      (e : WorkflowEdge), getIncomingEdges wf nodeId = [e] →
      lookupAssoc st.nodeOutputs e.source = none →
      gatherNodeInput wf input st nodeId = .vObj []) ∧
    (∀ (wf : WorkflowDefinition) (input : Value) (st : EngineState) (nodeId : String)
      (e1 e2 : WorkflowEdge) (rest : List WorkflowEdge),
      getIncomingEdges wf nodeId = e1 :: e2 :: rest →
      (∀ e ∈ e1 :: e2 :: rest, ∀ fs,
        lookupAssoc st.nodeOutputs e.source ≠ some (.vObj fs)) →
      gatherNodeInput wf input st nodeId = .vObj []) ∧
    gatherNodeInput mixWF inputX mixSt "M" = .vObj [("b", .vNum 2)] := by
  refine ⟨?_, ?_, rfl⟩
  · intro wf input st nodeId e h hnone
    simp only [gatherNodeInput, h, hnone]
  · intro wf input st nodeId e1 e2 rest h hobj
    simp only [gatherNodeInput, h]
    have hfold : (e1 :: e2 :: rest).foldl (fun acc e =>
        match lookupAssoc st.nodeOutputs e.source with
        | some (.vObj fs) => fs.foldl (fun a p => setAssoc a p.1 p.2) acc
        | _ => acc) [] = [] := by
      apply foldl_preserve (fun m => m = []) _ _ [] rfl
      intro a e he ha
      show (match lookupAssoc st.nodeOutputs e.source with
        | some (.vObj fs) => fs.foldl (fun a p => setAssoc a p.1 p.2) a
        | _ => a) = []
      cases hsrc : lookupAssoc st.nodeOutputs e.source with
      | none => exact ha
      | some v =>
        cases v with
        | vObj fs => exact absurd hsrc (hobj e he fs)
        | vNull => exact ha
        | vUndefined => exact ha
        | vBool b => exact ha
        | vNum n => exact ha
        | vStr s => exact ha
    rw [hfold]

/-- C10 witness: the single-edge clause with no recorded output, and the
multi-edge clause where one source is a string and the other has no output. -/
theorem c10_witness :
    gatherNodeInput abWF inputX EngineState.empty "B" = .vObj [] ∧
    gatherNodeInput mergeWF inputX strSt "M" = .vObj [] := by
  refine ⟨c10_gather_skips.1 abWF inputX EngineState.empty "B"
      ⟨"e1", "A", "B", none⟩ rfl rfl,
    c10_gather_skips.2.1 mergeWF inputX strSt "M"
      ⟨"e1", "S1", "M", none⟩ ⟨"e2", "S2", "M", none⟩ [] rfl ?_⟩
  intro e he fs
  rcases (by simpa using he :
      e = (⟨"e1", "S1", "M", none⟩ : WorkflowEdge) ∨
      e = (⟨"e2", "S2", "M", none⟩ : WorkflowEdge)) with h | h
  · subst h
    have hv : lookupAssoc strSt.nodeOutputs "S1" = some (.vStr "x") := rfl
    rw [hv]
    intro hcontra
    injection hcontra with h1
    exact Value.noConfusion h1
  · subst h
    have hv : lookupAssoc strSt.nodeOutputs "S2" = none := rfl
    rw [hv]
    intro hcontra
    exact Option.noConfusion hcontra


/-- Is the value a primitive (not an object)? -/
def isPrimB : Value → Bool
  | .vObj _ => false
  | _ => true

/-- On primitives, strict equality `===` is exactly structural equality (and
a primitive never strictly equals an object). -/
theorem strictEqB_iff {u v : Value} (h : (isPrimB u || isPrimB v) = true) :
    strictEqB u v = true ↔ u = v := by
  cases u <;> cases v <;> simp_all [strictEqB, isPrimB]

/-- `isPrefixOf` as an append decomposition. -/
theorem isPrefixOf_iff_append (n : List Char) :
    ∀ (l : List Char), n.isPrefixOf l = true ↔ ∃ post, l = n ++ post := by
  induction n with
  | nil => intro l; simp [List.isPrefixOf]
  | cons a n' ih =>
    intro l
    cases l with
    | nil => simp [List.isPrefixOf]
    | cons b l' =>
      simp only [List.isPrefixOf, Bool.and_eq_true, beq_iff_eq, ih l']
      constructor
      · rintro ⟨hab, post, hpost⟩
        exact ⟨post, by simp [hab, hpost]⟩
      · rintro ⟨post, hpost⟩
        injection hpost with h1 h2
        exact ⟨h1.symm, post, h2⟩

/-- `substrB` is contiguous-substring occurrence. -/
theorem substrB_iff (n : List Char) :
    ∀ (l : List Char), substrB n l = true ↔ ∃ pre post, l = pre ++ n ++ post := by
  intro l
  induction l with
  | nil =>
    simp only [substrB, List.isEmpty_iff]
    constructor
    · intro h
      exact ⟨[], [], by simp [h]⟩
    · rintro ⟨pre, post, hp⟩
      rcases List.append_eq_nil.mp (List.append_eq_nil.mp hp.symm).1 with ⟨_, h2⟩
      exact h2
  | cons c t ih =>
    simp only [substrB, Bool.or_eq_true, isPrefixOf_iff_append, ih]
    constructor
    · rintro (⟨post, hpost⟩ | ⟨pre, post, hp⟩)
      · exact ⟨[], post, by simp [hpost]⟩
      · exact ⟨c :: pre, post, by simp [hp]⟩
    · rintro ⟨pre, post, hp⟩
      cases pre with
      | nil => exact Or.inl ⟨post, by simpa using hp⟩
      | cons p pre' =>
        injection hp with h1 h2
        exact Or.inr ⟨pre', post, h2⟩


/-- Exact-match semantics of a compiled pattern: which strings a pattern
denotes (star = zero or more repetitions of its atom). -/
inductive PMatchE : RPattern → List Char → Prop where
  | nil : PMatchE [] []
  | once {a : RAtom} {c : Char} {ps : RPattern} {s : List Char} :
      atomM a c = true → PMatchE ps s → PMatchE ((a, false) :: ps) (c :: s)
  | starSkip {a : RAtom} {ps : RPattern} {s : List Char} :
      PMatchE ps s → PMatchE ((a, true) :: ps) s
  | starStep {a : RAtom} {c : Char} {ps : RPattern} {s : List Char} :
      atomM a c = true → PMatchE ((a, true) :: ps) s → PMatchE ((a, true) :: ps) (c :: s)

/-- Soundness: a successful `matchHere` exhibits a matched prefix. -/
theorem matchHere_sound :
    ∀ (fuel : Nat) (ps : RPattern) (s : List Char), matchHere fuel ps s = true →
      ∃ s1 s2, s = s1 ++ s2 ∧ PMatchE ps s1 := by
  intro fuel
  induction fuel with
  | zero => intro ps s h; exact absurd h (by simp [matchHere])
  | succ fuel ih =>
    intro ps s h
    match ps with
    | [] => exact ⟨[], s, rfl, .nil⟩
    | (a, false) :: ps' =>
      match s with
      | [] => exact absurd h (by simp [matchHere])
      | c :: t =>
        simp only [matchHere, Bool.and_eq_true] at h
        obtain ⟨s1, s2, ht, hm⟩ := ih ps' t h.2
        exact ⟨c :: s1, s2, by simp [ht], .once h.1 hm⟩
    | (a, true) :: ps' =>
      simp only [matchHere, Bool.or_eq_true] at h
      rcases h with h | h
      · obtain ⟨s1, s2, hs, hm⟩ := ih ps' s h
        exact ⟨s1, s2, hs, .starSkip hm⟩
      · match s with
        | [] => exact absurd h (by simp)
        | c :: t =>
          simp only [Bool.and_eq_true] at h
          obtain ⟨s1, s2, ht, hm⟩ := ih ((a, true) :: ps') t h.2
          exact ⟨c :: s1, s2, by simp [ht], .starStep h.1 hm⟩

/-- Completeness: a denoted prefix is found by `matchHere` given enough
fuel. -/
theorem matchHere_complete {ps : RPattern} {s1 : List Char} (h : PMatchE ps s1) :
    ∀ (s2 : List Char) (fuel : Nat), ps.length + s1.length < fuel →
      matchHere fuel ps (s1 ++ s2) = true := by
  induction h with
  | nil =>
    intro s2 fuel hf
    cases fuel with
    | zero => exact absurd hf (by omega)
    | succ f => simp [matchHere]
  | once hac _ ih =>
    rename_i a c ps' s' _
    intro s2 fuel hf
    cases fuel with
    | zero => exact absurd hf (by omega)
    | succ f =>
      simp only [List.cons_append, matchHere, Bool.and_eq_true]
      refine ⟨hac, ih s2 f ?_⟩
      simp only [List.length_cons] at hf
      omega
  | starSkip _ ih =>
    rename_i a ps' s' _
    intro s2 fuel hf
    cases fuel with
    | zero => exact absurd hf (by omega)
    | succ f =>
      simp only [matchHere, Bool.or_eq_true]
      refine Or.inl (ih s2 f ?_)
      simp only [List.length_cons] at hf
      omega
  | starStep hac _ ih =>
    rename_i a c ps' s' _
    intro s2 fuel hf
    cases fuel with
    | zero => exact absurd hf (by omega)
    | succ f =>
      simp only [List.cons_append, matchHere, Bool.or_eq_true, Bool.and_eq_true]
      refine Or.inr ⟨hac, ih s2 f ?_⟩
      simp only [List.length_cons] at hf ⊢
      omega

/-- `rtestFrom` succeeds iff `matchHere` succeeds at some start position. -/
theorem rtestFrom_iff (fuel : Nat) (p : RPattern) :
    ∀ (s : List Char), rtestFrom fuel p s = true ↔
      ∃ pre rest, s = pre ++ rest ∧ matchHere fuel p rest = true := by
  intro s
  induction s with
  | nil =>
    simp only [rtestFrom]
    constructor
    · intro h
      exact ⟨[], [], rfl, h⟩
    · rintro ⟨pre, rest, hp, hm⟩
      rcases List.append_eq_nil.mp hp.symm with ⟨h1, h2⟩
      rw [h2] at hm
      exact hm
  | cons c t ih =>
    simp only [rtestFrom, Bool.or_eq_true, ih]
    constructor
    · rintro (h | ⟨pre, rest, hp, hm⟩)
      · exact ⟨[], c :: t, rfl, h⟩
      · exact ⟨c :: pre, rest, by simp [hp], hm⟩
    · rintro ⟨pre, rest, hp, hm⟩
      cases pre with
      | nil =>
        have h' : rest = c :: t := (by simpa using hp : c :: t = rest).symm
        rw [h'] at hm
        exact Or.inl hm
      | cons q pre' =>
        injection hp with h1 h2
        exact Or.inr ⟨pre', rest, h2, hm⟩

/-- `RegExp.test` semantics: the compiled pattern matches some contiguous
substring of the subject. -/
theorem rtest_iff (p : RPattern) (s : String) :
    rtest p s = true ↔
      ∃ pre mid post, s.toList = pre ++ mid ++ post ∧ PMatchE p mid := by
  unfold rtest
  rw [rtestFrom_iff]
  constructor
  · rintro ⟨pre, rest, hp, hm⟩
    obtain ⟨mid, post, hrest, hpm⟩ := matchHere_sound _ p rest hm
    exact ⟨pre, mid, post, by rw [hp, hrest, List.append_assoc], hpm⟩
  · rintro ⟨pre, mid, post, hp, hpm⟩
    refine ⟨pre, mid ++ post, by rw [hp, List.append_assoc], ?_⟩
    apply matchHere_complete hpm
    have : mid.length ≤ s.toList.length := by
      rw [hp]
      simp [List.length_append]
      omega
    omega


/-- A branches to B (condition `x eq 1`, passes) and C (condition `x eq 2`,
fails). -/
def branchWF : WorkflowDefinition :=
  ⟨"wf-branch", "branch", [nodeA, nodeB, nodeC],
    [⟨"e1", "A", "B", some ⟨"x", "eq", .vNum 1⟩⟩,
     ⟨"e2", "A", "C", some ⟨"x", "eq", .vNum 2⟩⟩], none⟩

/-- A → B, A → C (condition fails) and B → C: C is reached through B → C
because both of C's inbound sources (A and B) execute. -/
def reachWF : WorkflowDefinition :=
  ⟨"wf-reach", "reach", [nodeA, nodeB, nodeC],
    [⟨"e1", "A", "B", none⟩,
     ⟨"e2", "A", "C", some ⟨"x", "eq", .vNum 2⟩⟩,
     ⟨"e3", "B", "C", none⟩], none⟩

/-- A → B, A → C (condition fails), C → D and B → D: D is graph-reachable
from executed B via B → D, but its other inbound source C never executes. -/
def diamondWF : WorkflowDefinition :=
  ⟨"wf-diamond", "diamond", [nodeA, nodeB, nodeC, nodeD],
    [⟨"e1", "A", "B", none⟩,
     ⟨"e2", "A", "C", some ⟨"x", "eq", .vNum 2⟩⟩,
     ⟨"e3", "C", "D", none⟩,
     ⟨"e4", "B", "D", none⟩], none⟩

/-- C5 counterexample: in `diamondWF` the condition on A → C fails, so C is
skipped; D is reachable via the other edge B → D, whose source B executed,
yet D is never executed — dependency gating keeps waiting for C forever.
This refutes "a failed condition skips the edge and its downstream subtree
unless it is reachable via another edge". -/
theorem c5_counterexample :
    (executeCore diamondWF passHandlers inputX).2.executedNodes = ["A", "B"] ∧
    (⟨"e4", "B", "D", none⟩ : WorkflowEdge) ∈ diamondWF.edges ∧
    "B" ∈ (executeCore diamondWF passHandlers inputX).2.executedNodes ∧
    "D" ∉ (executeCore diamondWF passHandlers inputX).2.executedNodes := by
  have hex : (executeCore diamondWF passHandlers inputX).2.executedNodes =
      ["A", "B"] := rfl
  refine ⟨hex, ?_, ?_, ?_⟩
  · show _ ∈ [(⟨"e1", "A", "B", none⟩ : WorkflowEdge),
      ⟨"e2", "A", "C", some ⟨"x", "eq", .vNum 2⟩⟩, ⟨"e3", "C", "D", none⟩,
      ⟨"e4", "B", "D", none⟩]
    simp
  · rw [hex]
    simp
  · rw [hex]
    decide

/-- C5 (amended): a conditioned edge is followed iff the condition passes,
where `eq`/`neq` are strict (structural on primitives) equality on the
dot-resolved field, `gt`/`gte`/`lt`/`lte` are the standard integer
comparisons, `contains` is substring occurrence on the string-coerced
operands, `regex` compiles the string-coerced value and tests the
string-coerced field for a matching substring, and any unknown operator
passes.  A failed condition skips the edge; nodes downstream execute only if
every one of their inbound sources executes, so a skipped node blocks all of
its targets even when they are reachable via another edge, while a target
whose other inbound sources all executed is still reached. -/
theorem c5_condition_semantics :
    (∀ (data : Value) (f : String) (v : Value),
      (isPrimB (getNestedValue data f) || isPrimB v) = true →
      ((evaluateCondition (some ⟨f, "eq", v⟩) data = .ok true ↔
          getNestedValue data f = v) ∧
       (evaluateCondition (some ⟨f, "neq", v⟩) data = .ok true ↔
          getNestedValue data f ≠ v))) ∧
    (∀ (data : Value) (f : String) (a b : Int), getNestedValue data f = .vNum a →
      (evaluateCondition (some ⟨f, "gt", .vNum b⟩) data = .ok true ↔ b < a) ∧
      (evaluateCondition (some ⟨f, "gte", .vNum b⟩) data = .ok true ↔ b ≤ a) ∧
      (evaluateCondition (some ⟨f, "lt", .vNum b⟩) data = .ok true ↔ a < b) ∧
      (evaluateCondition (some ⟨f, "lte", .vNum b⟩) data = .ok true ↔ a ≤ b)) ∧
    (∀ (data : Value) (f : String) (v : Value),
      evaluateCondition (some ⟨f, "contains", v⟩) data = .ok true ↔
        ∃ pre post, (Value.jsToString (getNestedValue data f)).toList =
          pre ++ (Value.jsToString v).toList ++ post) ∧
    (∀ (data : Value) (f : String) (v : Value) (p : RPattern),
      parseRegex (Value.jsToString v) = some p →
      (evaluateCondition (some ⟨f, "regex", v⟩) data = .ok true ↔
        ∃ pre mid post, (Value.jsToString (getNestedValue data f)).toList =
          pre ++ mid ++ post ∧ PMatchE p mid)) ∧
    (∀ (data : Value) (f : String) (v : Value) (op : String),
      op ∉ (["eq", "neq", "gt", "gte", "lt", "lte", "contains", "regex"] :
        List String) →
      evaluateCondition (some ⟨f, op, v⟩) data = .ok true) ∧
    ((executeCore branchWF passHandlers inputX).2.executedNodes = ["A", "B"] ∧
     (executeCore reachWF passHandlers inputX).2.executedNodes = ["A", "B", "C"]) := by
  refine ⟨?_, ?_, ?_, ?_, ?_, rfl, rfl⟩
  · intro data f v hprim
    have heq : evaluateCondition (some ⟨f, "eq", v⟩) data =
        .ok (strictEqB (getNestedValue data f) v) := rfl
    have hneq : evaluateCondition (some ⟨f, "neq", v⟩) data =
        .ok (!strictEqB (getNestedValue data f) v) := rfl
    rw [heq, hneq]
    constructor
    · simp only [Except.ok.injEq]
      exact strictEqB_iff hprim
    · simp only [Except.ok.injEq, Bool.not_eq_true']
      rw [Bool.eq_false_iff]
      exact not_congr (strictEqB_iff hprim)
  · intro data f a b hfield
    have hgt : evaluateCondition (some ⟨f, "gt", .vNum b⟩) data =
        .ok (jsLtB (.vNum b) (getNestedValue data f)) := rfl
    have hgte : evaluateCondition (some ⟨f, "gte", .vNum b⟩) data =
        .ok (jsLeB (.vNum b) (getNestedValue data f)) := rfl
    have hlt : evaluateCondition (some ⟨f, "lt", .vNum b⟩) data =
        .ok (jsLtB (getNestedValue data f) (.vNum b)) := rfl
    have hlte : evaluateCondition (some ⟨f, "lte", .vNum b⟩) data =
        .ok (jsLeB (getNestedValue data f) (.vNum b)) := rfl
    rw [hgt, hgte, hlt, hlte, hfield]
    refine ⟨?_, ?_, ?_, ?_⟩ <;> simp [jsLtB, jsLeB, toNum?]
  · intro data f v
    have hc : evaluateCondition (some ⟨f, "contains", v⟩) data =
        .ok (substrB (Value.jsToString v).toList
          (Value.jsToString (getNestedValue data f)).toList) := rfl
    rw [hc]
    simp only [Except.ok.injEq]
    exact substrB_iff _ _
  · intro data f v p hp
    have hr : evaluateCondition (some ⟨f, "regex", v⟩) data =
        (match parseRegex (Value.jsToString v) with
         | some p => .ok (rtest p (Value.jsToString (getNestedValue data f)))
         | none => .error ("Invalid regular expression: " ++ Value.jsToString v)) := rfl
    rw [hr, hp]
    simp only [Except.ok.injEq]
    exact rtest_iff p _
  · intro data f v op hop
    simp only [List.mem_cons, List.mem_singleton, not_or] at hop
    obtain ⟨h1, h2, h3, h4, h5, h6, h7, h8, _⟩ := hop
    simp only [evaluateCondition]

/-- C5 witness: the `gt` clause and the unknown-operator clause on `{x:1}`. -/
theorem c5_witness :
    (evaluateCondition (some ⟨"x", "gt", .vNum 0⟩) inputX = .ok true ↔ (0 : Int) < 1) ∧
    evaluateCondition (some ⟨"x", "zzz", .vNum 0⟩) inputX = .ok true :=
  ⟨(c5_condition_semantics.2.1 inputX "x" 1 0 rfl).1,
   c5_condition_semantics.2.2.2.2.1 inputX "x" (.vNum 0) "zzz" (by decide)⟩


theorem splitDots_ne_nil : ∀ (cs : List Char), splitDots cs ≠ []
  | [] => by simp [splitDots]
  | c :: t => by
    simp only [splitDots]
    split
    · simp
    · split
      · simp
      · simp

theorem undef_foldl : ∀ (parts : List String), parts.foldl propGet .vUndefined = .vUndefined
  | [] => rfl
  | _ :: t => undef_foldl t

theorem splitDots_append (ys : List Char) :
    ∀ (xs : List Char), splitDots (xs ++ '.' :: ys) = splitDots xs ++ splitDots ys := by
  intro xs
  induction xs with
  | nil => simp [splitDots]
  | cons c t ih =>
    simp only [List.cons_append, splitDots]
    by_cases hc : c = '.'
    · simp [hc, ih]
    · simp only [if_neg hc, List.append_eq]
      cases hst : splitDots t with
      | nil => exact absurd hst (splitDots_ne_nil t)
      | cons h r =>
        rw [ih, hst]
        rfl

/-- C9: the dot-path lookup is total — on `null`/`undefined` data every path
resolves to `undefined`; extending a path that already resolved to
`undefined` still yields `undefined` (optional chaining never throws); an
object lookup with a missing key yields `undefined`; `eq` against a
non-`undefined` value then evaluates to `false`, so the edge is skipped; and
no operator other than `regex` can make condition evaluation throw. -/
theorem c9_lookup_totality :
    (∀ (path : String), getNestedValue .vNull path = .vUndefined ∧
      getNestedValue .vUndefined path = .vUndefined) ∧
    (∀ (data : Value) (p q : String), getNestedValue data p = .vUndefined →
      getNestedValue data (p ++ "." ++ q) = .vUndefined) ∧
    (∀ (fields : List (String × Value)) (key : String),
      (∀ pr ∈ fields, pr.1 ≠ key) → propGet (.vObj fields) key = .vUndefined) ∧
    (∀ (data : Value) (f : String) (v : Value),
      getNestedValue data f = .vUndefined → v ≠ .vUndefined →
      evaluateCondition (some ⟨f, "eq", v⟩) data = .ok false) ∧
    (∀ (data : Value) (c : Condition), c.operator ≠ "regex" →
      ∃ b, evaluateCondition (some c) data = .ok b) := by
  refine ⟨?_, ?_, ?_, ?_, ?_⟩
  · intro path
    constructor
    · show ((splitDots path.toList).map String.mk).foldl propGet .vNull = .vUndefined
      cases hsp : (splitDots path.toList).map String.mk with
      | nil =>
        exact absurd (List.map_eq_nil_iff.mp hsp) (splitDots_ne_nil path.toList)
      | cons a t => exact undef_foldl t
    · show ((splitDots path.toList).map String.mk).foldl propGet .vUndefined = .vUndefined
      exact undef_foldl _
  · intro data p q h
    show ((splitDots (p ++ "." ++ q).toList).map String.mk).foldl propGet data = .vUndefined
    have hdata : (p ++ "." ++ q).toList = p.toList ++ '.' :: q.toList := by
      show (p ++ "." ++ q).data = p.data ++ '.' :: q.data
      rw [String.data_append, String.data_append, List.append_assoc]
      rfl
    rw [hdata, splitDots_append, List.map_append, List.foldl_append]
    have hp : ((splitDots p.toList).map String.mk).foldl propGet data = .vUndefined := h
    rw [hp]
    exact undef_foldl _
  · intro fields key hmiss
    show ((fields.find? (fun pr => pr.1 == key)).map Prod.snd).getD .vUndefined = .vUndefined
    rw [List.find?_eq_none.mpr]
    · rfl
    · intro x hx
      simp [hmiss x hx]
  · intro data f v hfield hv
    have heq : evaluateCondition (some ⟨f, "eq", v⟩) data =
        .ok (strictEqB (getNestedValue data f) v) := rfl
    rw [heq, hfield]
    cases v with
    | vUndefined => exact absurd rfl hv
    | vNull => rfl
    | vBool b => rfl
    | vNum n => rfl
    | vStr s => rfl
    | vObj fs => rfl
  · intro data c hop
    apply evalCondition_ok_of_safe
    simp [conditionSafeB, hop]

/-- C9 witness: looking `a.b.c` up in `{a:1}` yields `undefined` (the lookup
does not throw), and `eq` against 1 then evaluates to `false`. -/
theorem c9_witness :
    getNestedValue (.vObj [("a", .vNum 1)]) ("a.b" ++ "." ++ "c") = .vUndefined ∧
    evaluateCondition (some ⟨"missing", "eq", .vNum 1⟩) (.vObj [("a", .vNum 1)]) =
      .ok false :=
  ⟨c9_lookup_totality.2.1 (.vObj [("a", .vNum 1)]) "a.b" "c" rfl,
   c9_lookup_totality.2.2.2.1 (.vObj [("a", .vNum 1)]) "missing" (.vNum 1) rfl
     (fun h => Value.noConfusion h)⟩


/-- C7: in direct mode (no queue backend) `enqueue` on a registered workflow
runs the Execution Engine synchronously — the returned record already
carries the fully completed execution outcome — and returns the fresh
execution id; `getJobStatus` then reports unavailable (`none`) for every job
id; and in durable mode `enqueue` also returns the execution id (the run is
deferred to the broker). -/
theorem c7_direct_mode :
    (∀ (store : List (String × WorkflowDefinition)) (handlers : Handlers)
      (workflowId : String) (wf : WorkflowDefinition) (input : Value)
      (userId : Option String) (mode jobId execId : String),
      lookupAssoc store workflowId = some wf →
      enqueueModel ⟨none, store⟩ handlers workflowId input userId mode jobId execId =
        .ok (execId, ⟨none, store⟩, some (execute wf handlers input))) ∧
    (∀ (store : List (String × WorkflowDefinition)) (jobId : String),
      getJobStatusModel ⟨none, store⟩ jobId = none) ∧
    (∀ (q : List (String × JobPayload)) (store : List (String × WorkflowDefinition))
      (handlers : Handlers) (workflowId : String) (input : Value)
      (userId : Option String) (mode jobId execId : String),
      ∃ st', enqueueModel ⟨some q, store⟩ handlers workflowId input userId mode
        jobId execId = .ok (execId, st', none)) := by
  refine ⟨?_, ?_, ?_⟩
  · intro store handlers workflowId wf input userId mode jobId execId h
    simp only [enqueueModel, h]
  · intro store jobId
    rfl
  · intro q store handlers workflowId input userId mode jobId execId
    exact ⟨_, rfl⟩

/-- C7 witness: direct-mode enqueue of the registered chain completes the
run inside the call and returns the execution id; job status is unavailable. -/
theorem c7_witness :
    enqueueModel ⟨none, [("wf-chain", plainChainWF)]⟩ passHandlers "wf-chain"
        inputX none "manual" "job-1" "exec-1" =
      .ok ("exec-1", ⟨none, [("wf-chain", plainChainWF)]⟩,
        some (execute plainChainWF passHandlers inputX)) ∧
    getJobStatusModel ⟨none, [("wf-chain", plainChainWF)]⟩ "job-1" = none :=
  ⟨c7_direct_mode.1 [("wf-chain", plainChainWF)] passHandlers "wf-chain"
      plainChainWF inputX none "manual" "job-1" "exec-1" rfl,
   c7_direct_mode.2.1 [("wf-chain", plainChainWF)] "job-1"⟩

/-- C8: `validateCron` accepts `* * * * *` and rejects `not a cron`, and
`schedule` with any invalid expression throws `Invalid cron expression: ...`
leaving the scheduled-job table unchanged (no job id is created). -/
theorem c8_cron_validation :
    validateCron "* * * * *" = true ∧
    validateCron "not a cron" = false ∧
    (∀ (jobs : List (String × ScheduledJob)) (workflowId expr tz freshId : String),
      validateCron expr = false →
      scheduleModel jobs workflowId expr tz freshId =
        (.error ("Invalid cron expression: " ++ expr), jobs)) := by
  refine ⟨rfl, rfl, ?_⟩
  intro jobs workflowId expr tz freshId h
  simp only [scheduleModel, h]
  rfl

/-- C8 witness: scheduling with `not a cron` throws and registers nothing. -/
theorem c8_witness :
    scheduleModel [] "wf-chain" "not a cron" "UTC" "schedule-1" =
      (.error "Invalid cron expression: not a cron", []) :=
  c8_cron_validation.2.2 [] "wf-chain" "not a cron" "UTC" "schedule-1" rfl

end Aether
